import Mathlib

/-!
# Verification of the USB port-mapper core (`usb_pmapper.c`)

A shallow embedding of the port-mapper core of the device model: the
subsystem that bridges an emulated USB host controller to real USB devices
through a user-space transport library (libusb).  Machine integers are
modelled as `Nat`/`Int` with explicit reductions modulo `2^w` where the C
code can wrap; calls into the transport library are modelled as oracle
parameters carrying the library's observable results; C loops whose
termination depends on data are given an explicit fuel parameter, with
`none` standing for divergence of the corresponding C loop.
-/

set_option linter.unusedVariables false

/-! ## Common data model -/

/-- Transfer/xfer status codes (`USB_ERR_*` of the device-model USB core;
the enum lives outside this translation unit, so only the constructors used
by `usb_pmapper.c` are modelled; their numeric values are irrelevant). -/
inductive UsbErr
  | normalCompletion  -- USB_ERR_NORMAL_COMPLETION
  | shortXfer         -- USB_ERR_SHORT_XFER
  | stalled           -- USB_ERR_STALLED
  | timeout           -- USB_ERR_TIMEOUT
  | badBufsize        -- USB_ERR_BAD_BUFSIZE
  | ioerror           -- USB_ERR_IOERROR
  | inUse             -- USB_ERR_IN_USE
  | inval             -- USB_ERR_INVAL
  deriving Repr, DecidableEq

/-- `USB_MAX_TIERS` (ABI constant, spec section 6). -/
def USB_MAX_TIERS : Nat := 7

/-! ## C1: `usb_dev_reset` -/

/-- Observable actions performed by `usb_dev_reset`. -/
inductive ResetEvent
  | devReset   -- a call to libusb_reset_device
  | resetEp    -- a call to usb_dev_reset_ep (endpoint-table reset)
  | updateEp   -- a call to usb_dev_update_ep (endpoint-table refresh)
  deriving Repr, DecidableEq

/-- Shallow embedding of `usb_dev_reset` (usb_pmapper.c:729-747).
`rc1` and `rc2` are the transport library's returns for the first and the
second `libusb_reset_device` call; the source discards `rc1`.  The result is
the function's return value paired with the trace of transport/endpoint-table
actions, in source order:
first reset, `usb_dev_reset_ep`, `usb_dev_update_ep`, second reset, and —
only when the second reset returned 0 — a second `reset_ep`/`update_ep`
pair. -/
def usb_dev_reset (rc1 rc2 : Int) : Int × List ResetEvent :=
  (rc2,
    [ResetEvent.devReset, ResetEvent.resetEp, ResetEvent.updateEp,
     ResetEvent.devReset] ++
      (if rc2 = 0 then [ResetEvent.resetEp, ResetEvent.updateEp] else []))

/-- C1: the reset operation is claimed to issue exactly one transport-library
device reset followed by one endpoint-table refresh.  The code instead issues
two transport resets on every call (and refreshes the endpoint table after
each), so the trace always contains two `devReset` events, never one. -/
theorem usb_dev_reset_two_resets_C1 :
    ∀ rc1 rc2 : Int, ((usb_dev_reset rc1 rc2).2.count ResetEvent.devReset) = 2 := by
  intro rc1 rc2
  by_cases h : rc2 = 0 <;> simp [usb_dev_reset, h, List.count_cons, List.count_append]

/-! ## C3: `clear_uas_desc` (Descriptor Patcher) -/

/-- The `while (i < len)` walk of `clear_uas_desc` (usb_pmapper.c:909-924),
with an explicit fuel.  Each iteration checks for an interface descriptor
advertising UAS (`data[i]==9 && data[i+1]==4 && data[i+7]==0x62`), zeroes
`data[i+7]` if found, and advances `i` by the current descriptor's length
byte `data[i]`.  `none` means the fuel ran out; since `i` strictly increases
whenever `data[i] > 0`, fuel `len + 1` is enough for every terminating run
of the C loop, so `clearUasLoop (len+1) data 0 len = none` holds exactly
when the C loop diverges. -/
def clearUasLoop : Nat → List Nat → Nat → Nat → Option (List Nat)
  | 0, _, _, _ => none
  | fuel+1, data, i, len =>
    if i < len then
      let data' :=
        if data.getD i 0 = 9 ∧ data.getD (i+1) 0 = 4 ∧ data.getD (i+7) 0 = 0x62 then
          data.set (i+7) 0
        else data
      clearUasLoop fuel data' (i + data'.getD i 0) len
    else some data

/-- Shallow embedding of `clear_uas_desc` (usb_pmapper.c:897-925): buffers of
fewer than 2 bytes, or whose second byte is not the CONFIGURATION descriptor
type (2), are returned unchanged; otherwise the patch walk runs. -/
def clear_uas_desc (data : List Nat) (len : Nat) : Option (List Nat) :=
  if len < 2 ∨ data.getD 1 0 ≠ 2 then some data
  else clearUasLoop (len + 1) data 0 len

/-- C3: the claim says the Descriptor Patcher terminates on every input, in
particular when a descriptor length byte is 0.  On the configuration buffer
`[0, 2]` (length byte 0, descriptor type 2) the walk never advances `i` and
the C loop runs forever: no amount of fuel completes it. -/
theorem clear_uas_desc_diverges_C3 :
    (∀ fuel : Nat, clearUasLoop fuel [0, 2] 0 2 = none) ∧
      clear_uas_desc [0, 2] 2 = none := by
  have h : ∀ fuel : Nat, clearUasLoop fuel [0, 2] 0 2 = none := by
    intro fuel
    induction fuel with
    | zero => rfl
    | succ n ih => exact ih
  exact ⟨h, h 3⟩

/-! ## C9 / C10: `usb_dev_info` -/

/-- The six valid `USB_INFO_*` query kinds accepted by `usb_dev_info`
(usb_pmapper.c:1158-1201).  An invalid integer code is modelled as `none`
at the call site (the `default:` arm of the source switch). -/
inductive UsbInfoKind
  | version  -- USB_INFO_VERSION
  | speed    -- USB_INFO_SPEED
  | bus      -- USB_INFO_BUS
  | port     -- USB_INFO_PORT
  | vid      -- USB_INFO_VID
  | pid      -- USB_INFO_PID
  deriving Repr, DecidableEq

/-- The fields of `struct usb_dev` that `usb_dev_info` can expose.
Modelled from the spec: the struct layout lives in a header outside this
translation unit; spec section 3 gives `bus: u8`, `path: [u8;7]` (so
`path[0]` is one byte) and 16-bit `vid`/`pid`; `version` and `speed` are
C `int`s (4 bytes). -/
structure UDevInfoState where
  version : Nat
  speed : Nat
  bus : Nat
  port0 : Nat   -- info.path.path[0]
  vid : Nat
  pid : Nat
  deriving Repr, DecidableEq

/-- `sizeof` of the field selected by each query kind (the `sz` computed by
each arm of the source switch).  Modelled from the spec as described at
`UDevInfoState`. -/
def infoFieldSize : UsbInfoKind → Nat
  | .version => 4
  | .speed => 4
  | .bus => 1
  | .port => 1
  | .vid => 2
  | .pid => 2

/-- libusb speed enumeration values (libusb.h, external library). -/
def LIBUSB_SPEED_LOW : Nat := 1
def LIBUSB_SPEED_FULL : Nat := 2
def LIBUSB_SPEED_HIGH : Nat := 3
def LIBUSB_SPEED_SUPER : Nat := 4

/-- Device-model speed constants (`USB_SPEED_*`, defined in a header outside
this translation unit; concrete values are irrelevant to the claims and are
chosen distinct from the libusb ones). -/
def USB_SPEED_UNKNOWN : Nat := 0x100
def USB_SPEED_LOW : Nat := 0x101
def USB_SPEED_FULL : Nat := 0x102
def USB_SPEED_HIGH : Nat := 0x103
def USB_SPEED_SUPER : Nat := 0x104

/-- Shallow embedding of `libusb_speed_to_usb_speed` (usb_pmapper.c:141-164). -/
def libusb_speed_to_usb_speed (libusb_speed : Nat) : Nat :=
  if libusb_speed = LIBUSB_SPEED_LOW then USB_SPEED_LOW
  else if libusb_speed = LIBUSB_SPEED_FULL then USB_SPEED_FULL
  else if libusb_speed = LIBUSB_SPEED_HIGH then USB_SPEED_HIGH
  else if libusb_speed = LIBUSB_SPEED_SUPER then USB_SPEED_SUPER
  else USB_SPEED_UNKNOWN

/-- Little-endian byte encoding of a field value, `count` bytes wide: the
bytes `memcpy` reads from the field's address. -/
def leBytes : Nat → Nat → List Nat
  | _, 0 => []
  | v, count + 1 => (v % 256) :: leBytes (v / 256) count

/-- The bytes at the address `pv` chosen by each arm of the source switch,
after the `USB_INFO_SPEED` arm's in-place speed conversion has been applied
to the device state. -/
def infoFieldBytes (u : UDevInfoState) : UsbInfoKind → List Nat
  | .version => leBytes u.version 4
  | .speed => leBytes u.speed 4
  | .bus => leBytes u.bus 1
  | .port => leBytes u.port0 1
  | .vid => leBytes u.vid 2
  | .pid => leBytes u.pid 2

/-- `memcpy(value, pv, sz)`: overwrite the first `bytes.length` bytes of the
caller's output buffer. -/
def writeBytes (out : List Nat) (bytes : List Nat) : List Nat :=
  bytes ++ out.drop bytes.length

/-- Shallow embedding of `usb_dev_info` (usb_pmapper.c:1158-1201).
Arguments: device state, query kind (`none` models an invalid `type` code),
the caller's output buffer contents, and the caller-supplied `size` (a C
`int`, hence `Int`).  Result: the returned status, the output buffer after
the call, and the device state after the call (the `USB_INFO_SPEED` arm
converts `info.speed` in place before the size check). -/
def usb_dev_info (u : UDevInfoState) (kind : Option UsbInfoKind)
    (out : List Nat) (size : Int) : Int × List Nat × UDevInfoState :=
  match kind with
  | none => (-1, out, u)
  | some k =>
    let u' : UDevInfoState :=
      match k with
      | .speed => { u with speed := libusb_speed_to_usb_speed u.speed }
      | _ => u
    let sz : Nat := infoFieldSize k
    let out' : List Nat :=
      if size = (sz : Int) then writeBytes out (infoFieldBytes u' k) else out
    ((if (sz : Int) = size then 0 else -1), out', u')

/-- C9: for every device and valid query kind, `usb_dev_info` returns 0 iff
the caller-supplied size equals the size of the requested field — copying
that field's bytes into the output buffer in that case — and returns -1
otherwise. -/
theorem usb_dev_info_exact_size_C9 :
    ∀ (u : UDevInfoState) (k : UsbInfoKind) (out : List Nat) (size : Int),
      ((usb_dev_info u (some k) out size).1 = 0 ↔ size = (infoFieldSize k : Int)) ∧
      ((usb_dev_info u (some k) out size).1 = -1 ↔ size ≠ (infoFieldSize k : Int)) ∧
      (size = (infoFieldSize k : Int) →
        (usb_dev_info u (some k) out size).2.1 =
          writeBytes out (infoFieldBytes (usb_dev_info u (some k) out size).2.2 k)) := by
  intro u k out size
  by_cases h : size = (infoFieldSize k : Int)
  · refine ⟨by simp [usb_dev_info, h], by simp [usb_dev_info, h], ?_⟩
    intro _
    cases k <;> simp [usb_dev_info, h]
  · have h' : ¬ ((infoFieldSize k : Int) = size) := fun hh => h hh.symm
    exact ⟨by simp [usb_dev_info, h', h], by simp [usb_dev_info, h', h],
      fun hh => absurd hh h⟩

/-- Witness for C9 at a concrete input: querying the bus (a 1-byte field)
with `size = 1` succeeds and copies the byte; the hypothesis of the copy
clause is discharged at `size = 1`. -/
theorem usb_dev_info_exact_size_C9_witness :
    ((usb_dev_info ⟨2, 1, 9, 3, 0x8086, 0x1234⟩ (some UsbInfoKind.bus) [7, 7] 1).1 = 0 ↔
      (1 : Int) = (infoFieldSize UsbInfoKind.bus : Int)) ∧
    (((usb_dev_info ⟨2, 1, 9, 3, 0x8086, 0x1234⟩ (some UsbInfoKind.bus) [7, 7] 1).1 = -1 ↔
      (1 : Int) ≠ (infoFieldSize UsbInfoKind.bus : Int))) ∧
    ((1 : Int) = (infoFieldSize UsbInfoKind.bus : Int) →
      (usb_dev_info ⟨2, 1, 9, 3, 0x8086, 0x1234⟩ (some UsbInfoKind.bus) [7, 7] 1).2.1 =
        writeBytes [7, 7]
          (infoFieldBytes
            (usb_dev_info ⟨2, 1, 9, 3, 0x8086, 0x1234⟩ (some UsbInfoKind.bus) [7, 7] 1).2.2
            UsbInfoKind.bus)) :=
  usb_dev_info_exact_size_C9 ⟨2, 1, 9, 3, 0x8086, 0x1234⟩ UsbInfoKind.bus [7, 7] 1

/-- C10: when the supplied size does not match the requested field's size,
the output buffer is returned completely untouched — the source performs the
`memcpy` only under `size == sz`, so no partial copy ever happens. -/
theorem usb_dev_info_no_partial_copy_C10 :
    ∀ (u : UDevInfoState) (k : UsbInfoKind) (out : List Nat) (size : Int),
      size ≠ (infoFieldSize k : Int) →
      (usb_dev_info u (some k) out size).2.1 = out := by
  intro u k out size h
  simp [usb_dev_info, h]

/-- Witness for C10: a 2-byte-field query with `size = 1` leaves the buffer
unchanged. -/
theorem usb_dev_info_no_partial_copy_C10_witness :
    (usb_dev_info ⟨2, 1, 9, 3, 0x8086, 0x1234⟩ (some UsbInfoKind.vid) [5, 6, 7] 1).2.1 =
      [5, 6, 7] :=
  usb_dev_info_no_partial_copy_C10 ⟨2, 1, 9, 3, 0x8086, 0x1234⟩ UsbInfoKind.vid
    [5, 6, 7] 1 (by decide)

/-! ## C6: `usb_dev_init` -/

/-- Hub-relative topological device path (spec section 3: `bus: u8`,
`depth: u8`, `path: [u8; MAX_TIERS]`). -/
structure UsbDevPath where
  bus : Nat
  depth : Nat
  path : List Nat
  deriving Repr, DecidableEq

/-- `ROOTHUB_PORT(path)`: the root-hub port `path.path[0]`.  Modelled from
the spec (the macro lives in a header outside this translation unit; spec
section 3: "`path[0]` is the root-hub port … a zero root-hub port marks the
entry as a root hub itself"). -/
def ROOTHUB_PORT (p : UsbDevPath) : Nat := p.path.getD 0 0

/-- `struct usb_native_devinfo` as produced by the Scanner and consumed by
`usb_dev_init` (the fields read by this translation unit). -/
structure NativeDevInfo where
  path : UsbDevPath
  speed : Nat
  vid : Nat
  pid : Nat
  bcd : Nat
  deriving Repr, DecidableEq

/-- The outcome of a successful `usb_dev_init`: the populated parts of
`struct usb_dev` that the function assigns (`info`, `version`). -/
structure UsbDevInit where
  info : NativeDevInfo
  version : Nat
  deriving Repr, DecidableEq

/-- Shallow embedding of `usb_dev_init` (usb_pmapper.c:1049-1119).
`bcdUSB` is the `desc.bcdUSB` obtained from `libusb_get_device_descriptor`
(equal to `di.bcd` for a real device; the source re-reads it);
`callocOk`, `openOk`, `detachOk` are oracles for `calloc`, `libusb_open`
and `usb_dev_native_toggle_if_drivers(…, 0)`, each of whose failure takes
the `errout` path.  In source order: allocation, the root-hub rejection
(`ROOTHUB_PORT == 0`), the `bcdUSB` switch (3 accepted USB-3 codes, 3
accepted USB-2 codes plus the 0x110 special case, everything else
`errout`), open, driver detach. -/
def usb_dev_init (di : NativeDevInfo) (bcdUSB : Nat)
    (callocOk openOk detachOk : Bool) : Option UsbDevInit :=
  if !callocOk then none
  else if ROOTHUB_PORT di.path = 0 then none
  else
    let ver? : Option Nat :=
      if bcdUSB = 0x320 ∨ bcdUSB = 0x310 ∨ bcdUSB = 0x300 then some 3
      else if bcdUSB = 0x200 ∨ bcdUSB = 0x201 ∨ bcdUSB = 0x210 ∨ bcdUSB = 0x110 then
        some 2
      else none
    match ver? with
    | none => none
    | some ver =>
      if !openOk then none
      else if !detachOk then none
      else some { info := di, version := ver }

/-- C6 counterexample: the claim says any 3.x `bcd_usb` maps to version 3.
For `bcd_usb = 0x301` (a 3.x value) on a non-root-hub device with every
transport call succeeding, `usb_dev_init` hits the `default:` arm of the
switch and returns null instead of a version-3 device. -/
theorem usb_dev_init_bcd301_C6_cex :
    usb_dev_init ⟨⟨1, 1, [1, 0, 0, 0, 0, 0, 0]⟩, 3, 0x8086, 0x1234, 0x301⟩ 0x301
      true true true = none := by
  decide

/-- C6 amended: `usb_dev_init` never returns a device whose root-hub port is
0, and any returned device has version 3 exactly for
`bcd_usb ∈ {0x300, 0x310, 0x320}` and version 2 exactly for
`bcd_usb ∈ {0x200, 0x201, 0x210, 0x110}`; every other `bcd_usb` value (and
any allocation/open/detach failure) yields null. -/
theorem usb_dev_init_version_C6_amended :
    ∀ (di : NativeDevInfo) (bcdUSB : Nat) (cOk oOk dOk : Bool) (d : UsbDevInit),
      usb_dev_init di bcdUSB cOk oOk dOk = some d →
      ROOTHUB_PORT di.path ≠ 0 ∧
      (((bcdUSB = 0x320 ∨ bcdUSB = 0x310 ∨ bcdUSB = 0x300) ∧ d.version = 3) ∨
       ((bcdUSB = 0x200 ∨ bcdUSB = 0x201 ∨ bcdUSB = 0x210 ∨ bcdUSB = 0x110) ∧
         d.version = 2)) := by
  intro di bcdUSB cOk oOk dOk d h
  unfold usb_dev_init at h
  by_cases hc : cOk
  · simp only [hc, Bool.not_true, Bool.false_eq_true, if_false] at h
    by_cases hr : ROOTHUB_PORT di.path = 0
    · simp [hr] at h
    · refine ⟨hr, ?_⟩
      simp only [hr, if_false] at h
      by_cases h3 : bcdUSB = 0x320 ∨ bcdUSB = 0x310 ∨ bcdUSB = 0x300
      · left
        refine ⟨h3, ?_⟩
        simp only [h3, if_true] at h
        by_cases ho : oOk <;> by_cases hd : dOk <;>
          simp [ho, hd] at h
        exact (congrArg UsbDevInit.version h.symm)
      · by_cases h2 : bcdUSB = 0x200 ∨ bcdUSB = 0x201 ∨ bcdUSB = 0x210 ∨ bcdUSB = 0x110
        · right
          refine ⟨h2, ?_⟩
          simp only [h3, if_false, h2, if_true] at h
          by_cases ho : oOk <;> by_cases hd : dOk <;>
            simp [ho, hd] at h
          exact (congrArg UsbDevInit.version h.symm)
        · simp [h3, h2] at h
  · simp [hc] at h

/-- Witness for C6 at a concrete input: a device at root-hub port 1 with
`bcd_usb = 0x300` is accepted with version 3. -/
theorem usb_dev_init_version_C6_witness :
    usb_dev_init ⟨⟨1, 1, [1, 0, 0, 0, 0, 0, 0]⟩, 3, 0x8086, 0x1234, 0x300⟩ 0x300
        true true true =
      some ⟨⟨⟨1, 1, [1, 0, 0, 0, 0, 0, 0]⟩, 3, 0x8086, 0x1234, 0x300⟩, 3⟩ ∧
    (ROOTHUB_PORT (⟨1, 1, [1, 0, 0, 0, 0, 0, 0]⟩ : UsbDevPath) ≠ 0 ∧
      ((((0x300 : Nat) = 0x320 ∨ (0x300 : Nat) = 0x310 ∨ (0x300 : Nat) = 0x300) ∧
          (⟨⟨⟨1, 1, [1, 0, 0, 0, 0, 0, 0]⟩, 3, 0x8086, 0x1234, 0x300⟩, 3⟩ :
            UsbDevInit).version = 3) ∨
        (((0x300 : Nat) = 0x200 ∨ (0x300 : Nat) = 0x201 ∨ (0x300 : Nat) = 0x210 ∨
            (0x300 : Nat) = 0x110) ∧
          (⟨⟨⟨1, 1, [1, 0, 0, 0, 0, 0, 0]⟩, 3, 0x8086, 0x1234, 0x300⟩, 3⟩ :
            UsbDevInit).version = 2))) :=
  ⟨by decide,
    usb_dev_init_version_C6_amended ⟨⟨1, 1, [1, 0, 0, 0, 0, 0, 0]⟩, 3, 0x8086, 0x1234, 0x300⟩
      0x300 true true true _ (by decide)⟩

/-! ## Block ring and control requests (C2 / C4 / C5) -/

/-- `USB_DATA_*` block types (spec section 3). -/
inductive BlockType
  | dnone  -- USB_DATA_NONE
  | part   -- USB_DATA_PART
  | full   -- USB_DATA_FULL
  | link   -- USB_DATA_LINK
  deriving Repr, DecidableEq

/-- `USB_BLOCK_*` block states. -/
inductive BlockStat
  | free      -- USB_BLOCK_FREE
  | handling  -- USB_BLOCK_HANDLING
  | handled   -- USB_BLOCK_HANDLED
  deriving Repr, DecidableEq

/-- One scatter/gather block of a transfer ring (`struct usb_block`):
buffer contents, remaining length, bytes done, type and state. -/
structure UsbBlock where
  buf : List Nat
  blen : Nat
  bdone : Nat
  btype : BlockType
  stat : BlockStat
  deriving Repr, DecidableEq

instance : Inhabited UsbBlock := ⟨⟨[], 0, 0, BlockType.dnone, BlockStat.free⟩⟩

/-- Ring-index increment.  Modelled from the spec (section 9: "an
index-based circular buffer … honoring wrap-around"); the helper is declared
in a header outside this translation unit. -/
def index_inc (idx size : Nat) : Nat := (idx + 1) % size

/-- Ring-index validity `index_valid(head, tail, size, idx)`: `idx` lies in
the half-open ring span from `head` (inclusive) to `tail` (exclusive),
honoring wrap-around.  Modelled from the spec as for `index_inc`. -/
def index_valid (head tail size idx : Nat) : Bool :=
  if head ≤ tail then decide (head ≤ idx ∧ idx < tail)
  else decide ((head ≤ idx ∧ idx < size) ∨ idx < tail)

/-- The standard-request setup packet extracted from `xfer->ureq`. -/
structure SetupPkt where
  bmRequestType : Nat
  bRequest : Nat
  wValue : Nat
  wIndex : Nat
  wLength : Nat
  deriving Repr, DecidableEq

/-- The parts of a control `usb_xfer` read by `usb_dev_request`: the block
ring (`data[max_blk_cnt]`), the `head` cursor (a C `int`, so it may be
negative), the live-count `ndata`, and the setup packet (`none` models a
null `ureq`). -/
structure CtrlXfer where
  max_blk_cnt : Nat
  data : List UsbBlock
  head : Int
  ndata : Nat
  ureq : Option SetupPkt
  deriving Repr, DecidableEq

/-- The `for (i = 0; i < xfer->ndata; i++)` loop of
`usb_dev_prepare_ctrl_xfer` (usb_pmapper.c:714-725): remember the first
block with `blen > 0`, mark every visited block `USB_BLOCK_HANDLED`, step
the ring index. -/
def prepareCtrlLoop :
    Nat → List UsbBlock → Nat → Nat → Option Nat → List UsbBlock × Option Nat
  | 0, blocks, _, _, ret => (blocks, ret)
  | n + 1, blocks, idx, size, ret =>
    let blk := blocks.getD idx default
    let ret' := if 0 < blk.blen ∧ ret = none then some idx else ret
    prepareCtrlLoop n (blocks.set idx { blk with stat := BlockStat.handled })
      (index_inc idx size) size ret'

/-- Shallow embedding of `usb_dev_prepare_ctrl_xfer` (usb_pmapper.c:702-727):
returns the updated block ring and the index of the data-stage block
(`none` models the null return, including the out-of-range `head` guard). -/
def usb_dev_prepare_ctrl_xfer (x : CtrlXfer) : List UsbBlock × Option Nat :=
  if x.head < 0 ∨ (x.max_blk_cnt : Int) ≤ x.head then (x.data, none)
  else prepareCtrlLoop x.ndata x.data x.head.toNat x.max_blk_cnt none

/-- Standard request codes and request-type codes used by the source switch
(`UR_*`/`UT_*`, declared in a header outside this translation unit).
Modelled from the spec's request table with the USB chapter-9 values. -/
def UR_CLEAR_FEATURE : Nat := 0x01
def UR_SET_ADDRESS : Nat := 0x05
def UR_GET_DESCRIPTOR : Nat := 0x06
def UR_SET_CONFIG : Nat := 0x09
def UR_SET_INTERFACE : Nat := 0x0b
def UT_WRITE_DEVICE : Nat := 0x00
def UT_WRITE_INTERFACE : Nat := 0x01
def UT_WRITE_ENDPOINT : Nat := 0x02
def UT_READ : Nat := 0x80

/-- `USB_NUM_INTERFACE` (header constant; spec section 6: an implementation
choice ≥ 16). -/
def USB_NUM_INTERFACE : Nat := 16

/-- libusb error codes (libusb.h, external library). -/
def LIBUSB_ERROR_IO : Int := -1
def LIBUSB_ERROR_NO_DEVICE : Int := -4
def LIBUSB_ERROR_BUSY : Int := -6
def LIBUSB_ERROR_TIMEOUT : Int := -7
def LIBUSB_ERROR_OVERFLOW : Int := -8
def LIBUSB_ERROR_PIPE : Int := -9

/-- Shallow embedding of `usb_dev_err_convert` (usb_pmapper.c:410-424). -/
def usb_dev_err_convert (err : Int) : UsbErr :=
  if err = LIBUSB_ERROR_TIMEOUT then UsbErr.timeout
  else if err = LIBUSB_ERROR_PIPE then UsbErr.stalled
  else if err = LIBUSB_ERROR_NO_DEVICE then UsbErr.ioerror
  else if err = LIBUSB_ERROR_BUSY then UsbErr.inUse
  else if err = LIBUSB_ERROR_OVERFLOW then UsbErr.badBufsize
  else if err = LIBUSB_ERROR_IO then UsbErr.ioerror
  else UsbErr.ioerror

/-- Transport-library oracle for one `usb_dev_request` call:
`ctrlRc` is the return of `libusb_control_transfer` (bytes transferred, or a
negative error); `ctrlData` is the content the transport left in the
data-stage buffer on a successful device-to-host transfer; `clearHaltRc` is
the return of `libusb_clear_halt` (only logged by the source);
`setConfigOk` / `setIfOk` summarize the transport interactions of
`usb_dev_set_config` / `usb_dev_set_if` (their failure paths set the xfer
status to STALLED). -/
structure ReqOracle where
  ctrlRc : Int
  ctrlData : List Nat
  clearHaltRc : Int
  setConfigOk : Bool
  setIfOk : Bool
  deriving Repr, DecidableEq

/-- The parts of `struct usb_dev` read/written by `usb_dev_request`:
whether `info.priv_data` is non-null, and the guest-assigned address. -/
structure UDevCtrl where
  priv_data : Bool
  addr : Nat
  deriving Repr, DecidableEq

/-- Observable outcome of `usb_dev_request`: final xfer status, the block
ring after the call, the data-stage block index found by the prepare step,
the device address after the call, and which external actions were taken
(synchronous forward, clear-halt, set-configuration, set-interface). -/
structure ReqResult where
  status : UsbErr
  blocks : List UsbBlock
  dataBlk : Option Nat
  udevAddr : Nat
  forwarded : Bool
  clearHaltEp : Option Nat
  setConfigArg : Option Nat
  setIfArg : Option (Nat × Nat)
  deriving Repr, DecidableEq

/-- The synchronous forwarding tail of `usb_dev_request`
(usb_pmapper.c:1006-1044): the null-data guard, the 300 ms
`libusb_control_transfer`, the negative-return conversion, the UAS
descriptor patch on GET_DESCRIPTOR(CONFIGURATION) replies, and the final
data-stage/status bookkeeping.  `none` propagates divergence of the
`clear_uas_desc` walk. -/
def usb_dev_request_forward (udev : UDevCtrl) (o : ReqOracle) (u : SetupPkt)
    (blocks1 : List UsbBlock) (blkIdx : Option Nat) (needChkUas : Bool) :
    Option ReqResult :=
  let base : ReqResult :=
    { status := UsbErr.normalCompletion, blocks := blocks1, dataBlk := blkIdx,
      udevAddr := udev.addr, forwarded := false, clearHaltEp := none,
      setConfigArg := none, setIfArg := none }
  let len := u.wLength
  if blkIdx = none ∧ len ≠ 0 then
    some { base with status := UsbErr.ioerror }
  else
    let rc := o.ctrlRc
    if rc < 0 then
      some { base with forwarded := true, status := usb_dev_err_convert rc }
    else
      match blkIdx with
      | none =>
        -- no data stage: the `else` arm sets NORMAL_COMPLETION
        some { base with forwarded := true, status := UsbErr.normalCompletion }
      | some i =>
        let blk := blocks1.getD i default
        -- buffer contents after the transfer: filled by the device on IN
        let bufAfter := if u.bmRequestType &&& 0x80 ≠ 0 then o.ctrlData else blk.buf
        let patched? :=
          if needChkUas then clear_uas_desc bufAfter rc.toNat else some bufAfter
        match patched? with
        | none => none
        | some newbuf =>
          -- blk->blen = len - rc (uint32); blk->bdone += rc (uint32)
          let blen' := (((len : Int) - rc) % (2 ^ 32 : Int)).toNat
          let bdone' := (blk.bdone + rc.toNat) % 2 ^ 32
          let blocks2 :=
            blocks1.set i { blk with buf := newbuf, blen := blen', bdone := bdone' }
          some { base with
            blocks := blocks2, forwarded := true,
            status := if 0 < blen' then UsbErr.shortXfer else UsbErr.normalCompletion }

/-- Shallow embedding of `usb_dev_request` (usb_pmapper.c:927-1047).
In source order: status set to NORMAL_COMPLETION at entry; the
null-`priv_data`/null-`ureq` guard (IOERROR); the prepare step; the
data-stage validity check (early out, status untouched); the intercept
switch (SET_ADDRESS, SET_CONFIG, SET_INTERFACE, CLEAR_FEATURE(ENDPOINT_HALT)
with zero wValue — a non-zero wValue only logs a warning and `break`s into
the forwarding tail, as does GET_DESCRIPTOR after recording the UAS check);
then the forwarding tail. -/
def usb_dev_request (udev : UDevCtrl) (x : CtrlXfer) (o : ReqOracle) :
    Option ReqResult :=
  let base : ReqResult :=
    { status := UsbErr.normalCompletion, blocks := x.data, dataBlk := none,
      udevAddr := udev.addr, forwarded := false, clearHaltEp := none,
      setConfigArg := none, setIfArg := none }
  match x.ureq, udev.priv_data with
  | none, _ => some { base with status := UsbErr.ioerror }
  | some _, false => some { base with status := UsbErr.ioerror }
  | some u, true =>
    let pcx := usb_dev_prepare_ctrl_xfer x
    let blocks1 := pcx.1
    let blkIdx := pcx.2
    let len := u.wLength
    if (blkIdx = none ∧ 0 < len) ∨ (blkIdx ≠ none ∧ len = 0) then
      some { base with blocks := blocks1, dataBlk := blkIdx }
    else if u.bRequest = UR_SET_ADDRESS ∧ u.bmRequestType = UT_WRITE_DEVICE then
      some { base with blocks := blocks1, dataBlk := blkIdx, udevAddr := u.wValue }
    else if u.bRequest = UR_SET_CONFIG ∧ u.bmRequestType = UT_WRITE_DEVICE then
      some { base with
        blocks := blocks1, dataBlk := blkIdx,
        setConfigArg := some (u.wValue % 256),
        status := if o.setConfigOk then UsbErr.normalCompletion else UsbErr.stalled }
    else if u.bRequest = UR_SET_INTERFACE ∧ u.bmRequestType = UT_WRITE_INTERFACE then
      some { base with
        blocks := blocks1, dataBlk := blkIdx,
        setIfArg := some (u.wIndex, u.wValue),
        status := if USB_NUM_INTERFACE ≤ u.wIndex ∨ ¬o.setIfOk then UsbErr.stalled
                  else UsbErr.normalCompletion }
    else if u.bRequest = UR_CLEAR_FEATURE ∧ u.bmRequestType = UT_WRITE_ENDPOINT ∧
        u.wValue = 0 then
      some { base with
        blocks := blocks1, dataBlk := blkIdx, clearHaltEp := some u.wIndex }
    else
      usb_dev_request_forward udev o u blocks1 blkIdx
        (decide (u.bRequest = UR_GET_DESCRIPTOR ∧ u.bmRequestType = UT_READ ∧
          u.wValue = 0x0200))

/-- Reading back a `List.set` through `getD`: the written value at the
written (in-range) position, the old value elsewhere. -/
theorem getD_set_eq_ite {α : Type} [Inhabited α] (l : List α) (i j : Nat) (b : α) :
    (l.set i b).getD j default =
      if i = j ∧ j < l.length then b else l.getD j default := by
  simp only [List.getD_eq_getElem?_getD]
  by_cases h : i = j
  · subst h
    rw [List.getElem?_set_self']
    by_cases hl : i < l.length
    · simp [List.getElem?_eq_getElem hl, hl]
    · rw [List.getElem?_eq_none (Nat.le_of_not_lt hl)]
      simp [hl]
  · rw [List.getElem?_set_ne h]
    simp [h]

/-- The prepare loop does not change the ring's length. -/
theorem prepareCtrlLoop_length :
    ∀ (n : Nat) (blocks : List UsbBlock) (idx size : Nat) (ret : Option Nat),
      (prepareCtrlLoop n blocks idx size ret).1.length = blocks.length := by
  intro n
  induction n with
  | zero => intro blocks idx size ret; rfl
  | succ m ih =>
    intro blocks idx size ret
    simp only [prepareCtrlLoop]
    rw [ih, List.length_set]

/-- The prepare loop only changes block states: `buf`, `blen` and `bdone`
of every ring slot are preserved. -/
theorem prepareCtrlLoop_fields :
    ∀ (n : Nat) (blocks : List UsbBlock) (idx size : Nat) (ret : Option Nat) (j : Nat),
      ((prepareCtrlLoop n blocks idx size ret).1.getD j default).buf =
          (blocks.getD j default).buf ∧
      ((prepareCtrlLoop n blocks idx size ret).1.getD j default).blen =
          (blocks.getD j default).blen ∧
      ((prepareCtrlLoop n blocks idx size ret).1.getD j default).bdone =
          (blocks.getD j default).bdone := by
  intro n
  induction n with
  | zero => intro blocks idx size ret j; exact ⟨rfl, rfl, rfl⟩
  | succ m ih =>
    intro blocks idx size ret j
    simp only [prepareCtrlLoop]
    have h := ih (blocks.set idx { blocks.getD idx default with stat := BlockStat.handled })
      (index_inc idx size) size
      (if 0 < (blocks.getD idx default).blen ∧ ret = none then some idx else ret) j
    rw [getD_set_eq_ite] at h
    by_cases hij : idx = j ∧ j < blocks.length
    · simp only [hij, if_true] at h
      rcases hij with ⟨hij, _⟩
      subst hij
      exact h
    · simp only [hij, if_false] at h
      exact h

/-- If the prepare loop reports a data block, that index is in range and its
(preserved) `blen` is positive — unless it was already carried in by `ret`. -/
theorem prepareCtrlLoop_ret_some :
    ∀ (n : Nat) (blocks : List UsbBlock) (idx size : Nat) (ret : Option Nat) (i : Nat),
      (prepareCtrlLoop n blocks idx size ret).2 = some i →
      ret = some i ∨ (i < blocks.length ∧ 0 < (blocks.getD i default).blen) := by
  intro n
  induction n with
  | zero => intro blocks idx size ret i h; exact Or.inl h
  | succ m ih =>
    intro blocks idx size ret i h
    simp only [prepareCtrlLoop] at h
    have h' := ih (blocks.set idx { blocks.getD idx default with stat := BlockStat.handled })
      (index_inc idx size) size
      (if 0 < (blocks.getD idx default).blen ∧ ret = none then some idx else ret) i h
    rcases h' with h' | h'
    · by_cases hc : 0 < (blocks.getD idx default).blen ∧ ret = none
      · rw [if_pos hc] at h'
        have hii : idx = i := Option.some.inj h'
        subst hii
        right
        have hlen : idx < blocks.length := by
          by_contra hge
          have : blocks.getD idx default = default := by
            simp [List.getD_eq_getElem?_getD,
              List.getElem?_eq_none (Nat.le_of_not_lt hge)]
          rw [this] at hc
          exact absurd hc.1 (by simp [default])
        exact ⟨hlen, hc.1⟩
      · rw [if_neg hc] at h'
        exact Or.inl h'
    · right
      rw [List.length_set] at h'
      rw [getD_set_eq_ite] at h'
      by_cases hij : idx = i ∧ i < blocks.length
      · rcases hij with ⟨hij, hlen⟩
        subst hij
        simp only [hlen, and_true, if_pos rfl] at h'
        exact ⟨hlen, h'.2⟩
      · rw [if_neg hij] at h'
        exact h'

/-- `usb_dev_prepare_ctrl_xfer` preserves ring length and every slot's
`buf`/`blen`/`bdone`, and a reported data block is an in-range slot whose
`blen` is positive. -/
theorem usb_dev_prepare_ctrl_xfer_spec (x : CtrlXfer) :
    (usb_dev_prepare_ctrl_xfer x).1.length = x.data.length ∧
    (∀ j : Nat,
      ((usb_dev_prepare_ctrl_xfer x).1.getD j default).buf = (x.data.getD j default).buf ∧
      ((usb_dev_prepare_ctrl_xfer x).1.getD j default).blen =
        (x.data.getD j default).blen ∧
      ((usb_dev_prepare_ctrl_xfer x).1.getD j default).bdone =
        (x.data.getD j default).bdone) ∧
    (∀ i : Nat, (usb_dev_prepare_ctrl_xfer x).2 = some i →
      i < x.data.length ∧ 0 < (x.data.getD i default).blen) := by
  unfold usb_dev_prepare_ctrl_xfer
  by_cases hg : x.head < 0 ∨ (x.max_blk_cnt : Int) ≤ x.head
  · rw [if_pos hg]
    refine ⟨rfl, fun j => ⟨rfl, rfl, rfl⟩, fun i h => ?_⟩
    exact absurd h (by simp)
  · rw [if_neg hg]
    refine ⟨prepareCtrlLoop_length _ _ _ _ _,
      fun j => prepareCtrlLoop_fields _ _ _ _ _ _, fun i h => ?_⟩
    rcases prepareCtrlLoop_ret_some _ _ _ _ _ _ h with h' | h'
    · exact absurd h' (by simp)
    · exact h'

/-- C4: a control transfer whose data-stage pairing is invalid — neither
(data block present ∧ wLength > 0) nor (no data block ∧ wLength == 0) —
takes the early `goto out`: the xfer completes with the status it held at
the check (the NORMAL_COMPLETION assigned at function entry, i.e. the
validity failure itself writes no status), nothing is forwarded to the
device, and no intercept action (address write, set-config, set-interface,
clear-halt) is taken. -/
theorem usb_dev_request_invalid_pairing_C4 :
    ∀ (udev : UDevCtrl) (x : CtrlXfer) (o : ReqOracle) (u : SetupPkt),
      udev.priv_data = true → x.ureq = some u →
      ¬ (((usb_dev_prepare_ctrl_xfer x).2 ≠ none ∧ 0 < u.wLength) ∨
         ((usb_dev_prepare_ctrl_xfer x).2 = none ∧ u.wLength = 0)) →
      usb_dev_request udev x o =
        some { status := UsbErr.normalCompletion,
               blocks := (usb_dev_prepare_ctrl_xfer x).1,
               dataBlk := (usb_dev_prepare_ctrl_xfer x).2,
               udevAddr := udev.addr, forwarded := false, clearHaltEp := none,
               setConfigArg := none, setIfArg := none } := by
  intro udev x o u hp hu hinv
  have hcond : ((usb_dev_prepare_ctrl_xfer x).2 = none ∧ 0 < u.wLength) ∨
      ((usb_dev_prepare_ctrl_xfer x).2 ≠ none ∧ u.wLength = 0) := by
    by_cases hblk : (usb_dev_prepare_ctrl_xfer x).2 = none
    · rcases Nat.eq_zero_or_pos u.wLength with h0 | h0
      · exact absurd (Or.inr ⟨hblk, h0⟩) hinv
      · exact Or.inl ⟨hblk, h0⟩
    · rcases Nat.eq_zero_or_pos u.wLength with h0 | h0
      · exact Or.inr ⟨hblk, h0⟩
      · exact absurd (Or.inl ⟨hblk, h0⟩) hinv
  simp only [usb_dev_request, hu, hp]
  rw [if_pos hcond]

/-- Witness for C4: a GET_DESCRIPTOR setup with `wLength = 18` but an empty
block ring (no data block) — the invalid pairing — completes with the
entry status and no forwarding. -/
theorem usb_dev_request_invalid_pairing_C4_witness :
    usb_dev_request ⟨true, 5⟩ ⟨2, [], 0, 0, some ⟨0x80, 0x06, 0x0100, 0, 18⟩⟩
        ⟨0, [], 0, true, true⟩ =
      some { status := UsbErr.normalCompletion,
             blocks := (usb_dev_prepare_ctrl_xfer
               ⟨2, [], 0, 0, some ⟨0x80, 0x06, 0x0100, 0, 18⟩⟩).1,
             dataBlk := (usb_dev_prepare_ctrl_xfer
               ⟨2, [], 0, 0, some ⟨0x80, 0x06, 0x0100, 0, 18⟩⟩).2,
             udevAddr := 5, forwarded := false, clearHaltEp := none,
             setConfigArg := none, setIfArg := none } :=
  usb_dev_request_invalid_pairing_C4 ⟨true, 5⟩
    ⟨2, [], 0, 0, some ⟨0x80, 0x06, 0x0100, 0, 18⟩⟩ ⟨0, [], 0, true, true⟩
    ⟨0x80, 0x06, 0x0100, 0, 18⟩ rfl rfl (by decide)

/-- C2 counterexample: a CLEAR_FEATURE(ENDPOINT_HALT) request with
`wValue = 1 ≠ 0` (and a valid no-data-stage pairing) is **forwarded** to the
device by the synchronous control transfer — the `break` in the source
switch falls through to `libusb_control_transfer` — and `clear_halt` is not
called; the claim says such a request is rejected and not forwarded. -/
theorem usb_dev_request_clear_feature_forwarded_C2_cex :
    ((usb_dev_request ⟨true, 0⟩ ⟨4, [], 0, 0, some ⟨0x02, 0x01, 1, 0, 0⟩⟩
        ⟨0, [], 0, true, true⟩).map
      (fun r => (r.forwarded, r.clearHaltEp))) = some (true, none) := by
  decide

/-- Every path through the forwarding tail that reaches
`libusb_control_transfer` (with no UAS check pending) produces a result with
`forwarded` set and no clear-halt action; the only non-forwarding path is
the null-data guard. -/
theorem usb_dev_request_forward_reaches_device :
    ∀ (udev : UDevCtrl) (o : ReqOracle) (u : SetupPkt) (blocks1 : List UsbBlock)
      (blkIdx : Option Nat),
      ¬ (blkIdx = none ∧ u.wLength ≠ 0) →
      ∃ res, usb_dev_request_forward udev o u blocks1 blkIdx false = some res ∧
        res.forwarded = true ∧ res.clearHaltEp = none := by
  intro udev o u blocks1 blkIdx hg
  simp only [usb_dev_request_forward]
  rw [if_neg hg]
  by_cases hrc : o.ctrlRc < 0
  · rw [if_pos hrc]
    exact ⟨_, rfl, rfl, rfl⟩
  · rw [if_neg hrc]
    cases blkIdx with
    | none => exact ⟨_, rfl, rfl, rfl⟩
    | some i =>
      simp only [Bool.false_eq_true, if_false]
      exact ⟨_, rfl, rfl, rfl⟩

/-- C2 amended: for a CLEAR_FEATURE request to an endpoint with a valid
data-stage pairing, the source intercepts it only when `wValue == 0` (then
`libusb_clear_halt(wIndex)` is called, nothing is forwarded, and the status
stays NORMAL_COMPLETION); when `wValue != 0` the `break` in the switch
falls through to the forwarding tail, so the request **is** forwarded to
the device by the synchronous control transfer (with only a warning
logged) and `clear_halt` is not called. -/
theorem usb_dev_request_clear_feature_C2_amended :
    ∀ (udev : UDevCtrl) (x : CtrlXfer) (o : ReqOracle) (u : SetupPkt),
      udev.priv_data = true → x.ureq = some u →
      u.bRequest = UR_CLEAR_FEATURE → u.bmRequestType = UT_WRITE_ENDPOINT →
      (((usb_dev_prepare_ctrl_xfer x).2 ≠ none ∧ 0 < u.wLength) ∨
       ((usb_dev_prepare_ctrl_xfer x).2 = none ∧ u.wLength = 0)) →
      (u.wValue = 0 →
        usb_dev_request udev x o =
          some { status := UsbErr.normalCompletion,
                 blocks := (usb_dev_prepare_ctrl_xfer x).1,
                 dataBlk := (usb_dev_prepare_ctrl_xfer x).2,
                 udevAddr := udev.addr, forwarded := false,
                 clearHaltEp := some u.wIndex, setConfigArg := none,
                 setIfArg := none }) ∧
      (u.wValue ≠ 0 →
        ∃ res, usb_dev_request udev x o = some res ∧
          res.forwarded = true ∧ res.clearHaltEp = none) := by
  intro udev x o u hp hu hr ht hvalid
  have hnc : ¬ (((usb_dev_prepare_ctrl_xfer x).2 = none ∧ 0 < u.wLength) ∨
      ((usb_dev_prepare_ctrl_xfer x).2 ≠ none ∧ u.wLength = 0)) := by
    rcases hvalid with ⟨hne, hpos⟩ | ⟨hno, hz⟩
    · rintro (⟨h1, _⟩ | ⟨_, h2⟩)
      · exact hne h1
      · omega
    · rintro (⟨_, h1⟩ | ⟨h2, _⟩)
      · omega
      · exact h2 hno
  constructor
  · intro hv0
    simp only [usb_dev_request, hu, hp]
    rw [if_neg hnc]
    rw [if_neg (by simp [hr, ht, UR_CLEAR_FEATURE, UR_SET_ADDRESS, UT_WRITE_ENDPOINT,
      UT_WRITE_DEVICE])]
    rw [if_neg (by simp [hr, UR_CLEAR_FEATURE, UR_SET_CONFIG])]
    rw [if_neg (by simp [hr, UR_CLEAR_FEATURE, UR_SET_INTERFACE])]
    rw [if_pos ⟨hr, ht, hv0⟩]
  · intro hvne
    simp only [usb_dev_request, hu, hp]
    rw [if_neg hnc]
    rw [if_neg (by simp [hr, ht, UR_CLEAR_FEATURE, UR_SET_ADDRESS, UT_WRITE_ENDPOINT,
      UT_WRITE_DEVICE])]
    rw [if_neg (by simp [hr, UR_CLEAR_FEATURE, UR_SET_CONFIG])]
    rw [if_neg (by simp [hr, UR_CLEAR_FEATURE, UR_SET_INTERFACE])]
    rw [if_neg (fun hc => hvne hc.2.2)]
    have hchk : decide (u.bRequest = UR_GET_DESCRIPTOR ∧ u.bmRequestType = UT_READ ∧
        u.wValue = 0x0200) = false := by
      simp [hr, UR_CLEAR_FEATURE, UR_GET_DESCRIPTOR]
    rw [hchk]
    apply usb_dev_request_forward_reaches_device
    rintro ⟨h1, h2⟩
    rcases hvalid with ⟨hne, _⟩ | ⟨_, hz⟩
    · exact hne h1
    · exact h2 hz

/-- Witness for C2 at a concrete input: for a CLEAR_FEATURE(ENDPOINT_HALT)
on endpoint 0x81 with `wValue = 0`, the core calls `clear_halt(0x81)` and
does not forward; the non-zero-`wValue` branch of the theorem is exercised
by the separate counterexample. -/
theorem usb_dev_request_clear_feature_C2_witness :
    usb_dev_request ⟨true, 0⟩ ⟨4, [], 0, 0, some ⟨0x02, 0x01, 0, 0x81, 0⟩⟩
        ⟨0, [], 0, true, true⟩ =
      some { status := UsbErr.normalCompletion,
             blocks := (usb_dev_prepare_ctrl_xfer
               ⟨4, [], 0, 0, some ⟨0x02, 0x01, 0, 0x81, 0⟩⟩).1,
             dataBlk := (usb_dev_prepare_ctrl_xfer
               ⟨4, [], 0, 0, some ⟨0x02, 0x01, 0, 0x81, 0⟩⟩).2,
             udevAddr := 0, forwarded := false, clearHaltEp := some 0x81,
             setConfigArg := none, setIfArg := none } :=
  (usb_dev_request_clear_feature_C2_amended ⟨true, 0⟩
      ⟨4, [], 0, 0, some ⟨0x02, 0x01, 0, 0x81, 0⟩⟩ ⟨0, [], 0, true, true⟩
      ⟨0x02, 0x01, 0, 0x81, 0⟩ rfl rfl rfl rfl (by decide)).1 rfl

/-- Success-path analysis of the forwarding tail: with a non-negative
transport return `rc ≤ wLength < 2^16` and in-range data-block index, the
result keeps `dataBlk`, maps `rc == wLength` to NORMAL_COMPLETION, and maps
`rc < wLength` to SHORT_XFER with `blen = wLength - rc` and
`bdone += rc` (uint32) on the data block. -/
theorem usb_dev_request_forward_success :
    ∀ (udev : UDevCtrl) (o : ReqOracle) (u : SetupPkt) (blocks1 : List UsbBlock)
      (blkIdx : Option Nat) (chk : Bool) (res : ReqResult),
      usb_dev_request_forward udev o u blocks1 blkIdx chk = some res →
      res.forwarded = true →
      0 ≤ o.ctrlRc → o.ctrlRc ≤ (u.wLength : Int) → u.wLength < 65536 →
      (∀ i, blkIdx = some i → i < blocks1.length) →
      res.dataBlk = blkIdx ∧
      (o.ctrlRc = (u.wLength : Int) → res.status = UsbErr.normalCompletion) ∧
      (o.ctrlRc < (u.wLength : Int) →
        res.status = UsbErr.shortXfer ∧
        ∃ i, blkIdx = some i ∧
          (res.blocks.getD i default).blen = u.wLength - o.ctrlRc.toNat ∧
          (res.blocks.getD i default).bdone =
            ((blocks1.getD i default).bdone + o.ctrlRc.toNat) % 2 ^ 32) := by
  intro udev o u blocks1 blkIdx chk res h hf hrc0 hrcle hlen hrange
  cases blkIdx with
  | none =>
    simp only [usb_dev_request_forward] at h
    split at h
    · cases Option.some.inj h
      simp at hf
    · rename_i hncond
      have hlz : u.wLength = 0 := by
        by_contra hnz
        exact hncond ⟨trivial, hnz⟩
      split at h
      · rename_i hc
        omega
      · cases Option.some.inj h
        refine ⟨rfl, fun _ => rfl, fun hlt => ?_⟩
        rw [hlz] at hlt
        omega
  | some i =>
    have hi : i < blocks1.length := hrange i rfl
    simp only [usb_dev_request_forward] at h
    split at h
    · rename_i hcond
      exact absurd hcond.1 (by simp)
    · split at h
      · rename_i hc
        omega
      · split at h
        · exact absurd h (by simp)
        · rename_i newbuf hpat
          cases Option.some.inj h
          have harith : (((u.wLength : Int) - o.ctrlRc) % (2 ^ 32 : Int)).toNat =
              u.wLength - o.ctrlRc.toNat := by
            omega
          refine ⟨rfl, fun heq => ?_, fun hlt => ?_⟩
          · have hbz : (((u.wLength : Int) - o.ctrlRc) % (2 ^ 32 : Int)).toNat = 0 := by
              omega
            simp only [hbz]
            rfl
          · have hbpos : 0 < (((u.wLength : Int) - o.ctrlRc) % (2 ^ 32 : Int)).toNat := by
              omega
            constructor
            · simp only [if_pos hbpos]
            · refine ⟨i, rfl, ?_, ?_⟩
              · rw [getD_set_eq_ite]
                rw [if_pos ⟨rfl, hi⟩]
                exact harith
              · rw [getD_set_eq_ite]
                rw [if_pos ⟨rfl, hi⟩]

/-- C5: for a forwarded control request whose synchronous transfer succeeds
returning `rc` bytes (`0 ≤ rc ≤ wLength`): `rc < wLength` yields status
SHORT_XFER with the data block's `blen` set to `wLength - rc` and its
`bdone` incremented by `rc`; `rc == wLength` yields NORMAL_COMPLETION.
(The `bdone` bound hypothesis rules out uint32 wrap-around of `bdone += rc`,
and `wLength < 2^16` reflects its uint16 type.) -/
theorem usb_dev_request_forward_status_C5 :
    ∀ (udev : UDevCtrl) (x : CtrlXfer) (o : ReqOracle) (u : SetupPkt) (res : ReqResult),
      udev.priv_data = true → x.ureq = some u → u.wLength < 65536 →
      usb_dev_request udev x o = some res → res.forwarded = true →
      0 ≤ o.ctrlRc → o.ctrlRc ≤ (u.wLength : Int) →
      (∀ j : Nat, (x.data.getD j default).bdone + o.ctrlRc.toNat < 2 ^ 32) →
      (o.ctrlRc = (u.wLength : Int) → res.status = UsbErr.normalCompletion) ∧
      (o.ctrlRc < (u.wLength : Int) →
        res.status = UsbErr.shortXfer ∧
        ∃ i, res.dataBlk = some i ∧
          (res.blocks.getD i default).blen = u.wLength - o.ctrlRc.toNat ∧
          (res.blocks.getD i default).bdone =
            (x.data.getD i default).bdone + o.ctrlRc.toNat) := by
  intro udev x o u res hp hu hlen h hf hrc0 hrcle hbd
  simp only [usb_dev_request, hu, hp] at h
  split at h
  · cases Option.some.inj h; simp at hf
  · split at h
    · cases Option.some.inj h; simp at hf
    · split at h
      · cases Option.some.inj h; simp at hf
      · split at h
        · cases Option.some.inj h; simp at hf
        · split at h
          · cases Option.some.inj h; simp at hf
          · have hspec := usb_dev_prepare_ctrl_xfer_spec x
            have hrange : ∀ i, (usb_dev_prepare_ctrl_xfer x).2 = some i →
                i < (usb_dev_prepare_ctrl_xfer x).1.length := by
              intro i hi
              rw [hspec.1]
              exact (hspec.2.2 i hi).1
            have hmain := usb_dev_request_forward_success udev o u
              (usb_dev_prepare_ctrl_xfer x).1 (usb_dev_prepare_ctrl_xfer x).2 _ res h hf
              hrc0 hrcle hlen hrange
            refine ⟨hmain.2.1, fun hlt => ?_⟩
            obtain ⟨hst, i, hidx, hblen, hbdone⟩ := hmain.2.2 hlt
            refine ⟨hst, i, ?_, hblen, ?_⟩
            · rw [hmain.1, hidx]
            · rw [hbdone, (hspec.2.1 i).2.2, Nat.mod_eq_of_lt (hbd i)]

/-- Witness for C5 at a concrete input: a forwarded IN request with
`wLength = 2` whose synchronous transfer returns 1 byte completes
SHORT_XFER with `blen = 1` and `bdone` incremented to 1. -/
theorem usb_dev_request_forward_status_C5_witness :
    ∃ res, usb_dev_request ⟨true, 7⟩
        ⟨2, [⟨[0, 0], 2, 0, BlockType.full, BlockStat.free⟩], 0, 1,
          some ⟨0x80, 0x00, 0, 0, 2⟩⟩ ⟨1, [9, 9], 0, true, true⟩ = some res ∧
      res.status = UsbErr.shortXfer ∧
      ∃ i, res.dataBlk = some i ∧
        (res.blocks.getD i default).blen = 1 ∧
        (res.blocks.getD i default).bdone = 1 := by
  have hreq : usb_dev_request ⟨true, 7⟩
      ⟨2, [⟨[0, 0], 2, 0, BlockType.full, BlockStat.free⟩], 0, 1,
        some ⟨0x80, 0x00, 0, 0, 2⟩⟩ ⟨1, [9, 9], 0, true, true⟩ =
      some ⟨UsbErr.shortXfer, [⟨[9, 9], 1, 1, BlockType.full, BlockStat.handled⟩],
        some 0, 7, true, none, none, none⟩ := by decide
  have h := usb_dev_request_forward_status_C5 ⟨true, 7⟩
      ⟨2, [⟨[0, 0], 2, 0, BlockType.full, BlockStat.free⟩], 0, 1,
        some ⟨0x80, 0x00, 0, 0, 2⟩⟩ ⟨1, [9, 9], 0, true, true⟩
      ⟨0x80, 0x00, 0, 0, 2⟩ _ rfl rfl (by decide) hreq (by decide) (by decide)
      (by decide)
      (by
        intro j
        cases j with
        | zero => decide
        | succ n =>
          show (0 : Nat) + (1 : Int).toNat < 2 ^ 32
          decide)
  obtain ⟨hst, i, hidx, hblen, hbdone⟩ := h.2 (by decide)
  have hi0 : i = 0 := by simpa using hidx.symm
  subst hi0
  exact ⟨_, hreq, hst, 0, hidx, by simp, by simp⟩

/-! ## C8: `internal_scan` (Topology Scanner) -/

/-- Reading back a `List.set` through `getD` with an arbitrary fallback. -/
theorem getD_set_eq {α : Type} (l : List α) (i j : Nat) (b : α) (d : α) :
    (l.set i b).getD j d =
      if i = j ∧ j < l.length then b else l.getD j d := by
  simp only [List.getD_eq_getElem?_getD]
  by_cases h : i = j
  · subst h
    rw [List.getElem?_set_self']
    by_cases hl : i < l.length
    · simp [List.getElem?_eq_getElem hl, hl]
    · rw [List.getElem?_eq_none (Nat.le_of_not_lt hl)]
      simp [hl]
  · rw [List.getElem?_set_ne h]
    simp [h]

/-- The first `for` loop of `internal_scan` (usb_pmapper.c:98-108): emit
(via `conn_cb`) every not-yet-visited device whose tier equals the current
depth and whose root-hub port is non-zero, marking it visited.  `devs` is
the device list (`none` models a `usb_get_native_devinfo` failure, which
`continue`s); the loop runs over the index list.  Returns the visit array
and the emission sequence, in order. -/
def scanPhase1 (devs : List (Option NativeDevInfo)) (depth : Nat) :
    List Nat → List Bool → List Bool × List (Nat × NativeDevInfo)
  | [], visit => (visit, [])
  | i :: rest, visit =>
    match devs.getD i none with
    | none => scanPhase1 devs depth rest visit
    | some di =>
      if visit.getD i false = false ∧ di.path.depth = depth ∧
          ROOTHUB_PORT di.path ≠ 0 then
        let out := scanPhase1 devs depth rest (visit.set i true)
        (out.1, (i, di) :: out.2)
      else scanPhase1 devs depth rest visit

/-- The second `for` loop of `internal_scan` (usb_pmapper.c:111-118): for
every not-yet-visited deeper device (with non-zero root-hub port), recurse
into the next tier; `recur` is the recursive `internal_scan` call at
`depth + 1`. -/
def scanPhase2 (devs : List (Option NativeDevInfo)) (depth : Nat)
    (recur : List Bool → List Bool × List (Nat × NativeDevInfo)) :
    List Nat → List Bool → List Bool × List (Nat × NativeDevInfo)
  | [], visit => (visit, [])
  | i :: rest, visit =>
    match devs.getD i none with
    | none => scanPhase2 devs depth recur rest visit
    | some di =>
      if visit.getD i false = false ∧ depth < di.path.depth ∧
          ROOTHUB_PORT di.path ≠ 0 then
        let out := recur visit
        let out2 := scanPhase2 devs depth recur rest out.1
        (out2.1, out.2 ++ out2.2)
      else scanPhase2 devs depth recur rest visit

/-- Shallow embedding of `internal_scan` (usb_pmapper.c:76-119): stop at
`USB_MAX_TIERS`, emit the current tier (first loop), then recurse deeper for
every unvisited deeper device (second loop).  The `fuel` argument only
bounds the recursion for Lean's termination: along the call tree
`fuel + depth` is constant, so with the top-level call's
`fuel = USB_MAX_TIERS` and `depth = 1` the depth guard always fires before
the fuel runs out and the `fuel = 0` branch is unreachable. -/
def internal_scan (devs : List (Option NativeDevInfo)) :
    Nat → Nat → List Bool → List Bool × List (Nat × NativeDevInfo)
  | 0, _, visit => (visit, [])
  | fuel + 1, depth, visit =>
    if USB_MAX_TIERS ≤ depth then (visit, [])
    else
      let p := scanPhase1 devs depth (List.range devs.length) visit
      let q := scanPhase2 devs depth (internal_scan devs fuel (depth + 1))
        (List.range devs.length) p.1
      (q.1, p.2 ++ q.2)

/-- The scanning step of `usb_dev_scan_dev` (usb_pmapper.c:121-139): a
zeroed visit array and a scan starting at depth 1.  The result is the
sequence of `conn_cb` emissions (device-list index paired with the device
info). -/
def usb_dev_scan_dev (devs : List (Option NativeDevInfo)) :
    List (Nat × NativeDevInfo) :=
  (internal_scan devs USB_MAX_TIERS 1 (List.replicate devs.length false)).2

/-- Phase 1 does not change the visit array's length. -/
theorem scanPhase1_length (devs : List (Option NativeDevInfo)) (depth : Nat) :
    ∀ (idxs : List Nat) (visit : List Bool),
      (scanPhase1 devs depth idxs visit).1.length = visit.length := by
  intro idxs
  induction idxs with
  | nil => intro visit; rfl
  | cons i rest ih =>
    intro visit
    cases hdi : devs.getD i none with
    | none => simp only [scanPhase1, hdi]; exact ih visit
    | some di =>
      simp only [scanPhase1, hdi]
      by_cases hc : visit.getD i false = false ∧ di.path.depth = depth ∧
          ROOTHUB_PORT di.path ≠ 0
      · rw [if_pos hc]
        show (scanPhase1 devs depth rest (visit.set i true)).1.length = visit.length
        rw [ih (visit.set i true), List.length_set]
      · rw [if_neg hc]
        exact ih visit

/-- Phase 1 never clears a visit mark. -/
theorem scanPhase1_mono (devs : List (Option NativeDevInfo)) (depth : Nat) :
    ∀ (idxs : List Nat) (visit : List Bool) (j : Nat),
      visit.getD j false = true →
      (scanPhase1 devs depth idxs visit).1.getD j false = true := by
  intro idxs
  induction idxs with
  | nil => intro visit j h; exact h
  | cons i rest ih =>
    intro visit j h
    cases hdi : devs.getD i none with
    | none => simp only [scanPhase1, hdi]; exact ih visit j h
    | some di =>
      simp only [scanPhase1, hdi]
      by_cases hc : visit.getD i false = false ∧ di.path.depth = depth ∧
          ROOTHUB_PORT di.path ≠ 0
      · rw [if_pos hc]
        refine ih (visit.set i true) j ?_
        rw [getD_set_eq]
        by_cases hij : i = j ∧ j < visit.length
        · rw [if_pos hij]
        · rw [if_neg hij]; exact h
      · rw [if_neg hc]; exact ih visit j h

/-- Every phase-1 emission is a device of the list at the current depth with
a non-zero root-hub port, unvisited on entry and visited afterwards. -/
theorem scanPhase1_em (devs : List (Option NativeDevInfo)) (depth : Nat) :
    ∀ (idxs : List Nat) (visit : List Bool),
      (∀ k ∈ idxs, k < visit.length) →
      ∀ e ∈ (scanPhase1 devs depth idxs visit).2,
        e.1 ∈ idxs ∧ devs.getD e.1 none = some e.2 ∧ e.2.path.depth = depth ∧
        ROOTHUB_PORT e.2.path ≠ 0 ∧ visit.getD e.1 false = false ∧
        (scanPhase1 devs depth idxs visit).1.getD e.1 false = true := by
  intro idxs
  induction idxs with
  | nil => intro visit hb e he; exact absurd he (by simp [scanPhase1])
  | cons i rest ih =>
    intro visit hb e he
    have hbrest : ∀ k ∈ rest, k < visit.length :=
      fun k hk => hb k (List.mem_cons_of_mem i hk)
    cases hdi : devs.getD i none with
    | none =>
      simp only [scanPhase1, hdi] at he ⊢
      have h := ih visit hbrest e he
      exact ⟨List.mem_cons_of_mem i h.1, h.2⟩
    | some di =>
      simp only [scanPhase1, hdi] at he ⊢
      by_cases hc : visit.getD i false = false ∧ di.path.depth = depth ∧
          ROOTHUB_PORT di.path ≠ 0
      · rw [if_pos hc] at he ⊢
        have hbrest' : ∀ k ∈ rest, k < (visit.set i true).length := by
          rw [List.length_set]; exact hbrest
        rcases List.mem_cons.mp he with rfl | he'
        · refine ⟨List.mem_cons_self i rest, hdi, hc.2.1, hc.2.2, hc.1, ?_⟩
          refine scanPhase1_mono devs depth rest (visit.set i true) i ?_
          rw [getD_set_eq]
          rw [if_pos ⟨rfl, hb i (List.mem_cons_self i rest)⟩]
        · have h := ih (visit.set i true) hbrest' e he'
          refine ⟨List.mem_cons_of_mem i h.1, h.2.1, h.2.2.1, h.2.2.2.1, ?_,
            h.2.2.2.2.2⟩
          have hun := h.2.2.2.2.1
          rw [getD_set_eq] at hun
          by_cases hij : i = e.1 ∧ e.1 < visit.length
          · rw [if_pos hij] at hun; exact absurd hun (by simp)
          · rw [if_neg hij] at hun; exact hun
      · rw [if_neg hc] at he ⊢
        have h := ih visit hbrest e he
        exact ⟨List.mem_cons_of_mem i h.1, h.2⟩

/-- Phase-1 emissions carry pairwise-distinct device indices. -/
theorem scanPhase1_nodup (devs : List (Option NativeDevInfo)) (depth : Nat) :
    ∀ (idxs : List Nat) (visit : List Bool),
      (∀ k ∈ idxs, k < visit.length) →
      ((scanPhase1 devs depth idxs visit).2.map Prod.fst).Nodup := by
  intro idxs
  induction idxs with
  | nil => intro visit hb; simp [scanPhase1]
  | cons i rest ih =>
    intro visit hb
    have hbrest : ∀ k ∈ rest, k < visit.length :=
      fun k hk => hb k (List.mem_cons_of_mem i hk)
    cases hdi : devs.getD i none with
    | none => simp only [scanPhase1, hdi]; exact ih visit hbrest
    | some di =>
      simp only [scanPhase1, hdi]
      by_cases hc : visit.getD i false = false ∧ di.path.depth = depth ∧
          ROOTHUB_PORT di.path ≠ 0
      · rw [if_pos hc]
        have hbrest' : ∀ k ∈ rest, k < (visit.set i true).length := by
          rw [List.length_set]; exact hbrest
        show (((i, di) :: (scanPhase1 devs depth rest (visit.set i true)).2).map
          Prod.fst).Nodup
        rw [List.map_cons, List.nodup_cons]
        refine ⟨?_, ih (visit.set i true) hbrest'⟩
        intro hmem
        rcases List.mem_map.mp hmem with ⟨e, he, hei⟩
        have h := scanPhase1_em devs depth rest (visit.set i true) hbrest' e he
        have hun := h.2.2.2.2.1
        rw [hei, getD_set_eq] at hun
        rw [if_pos ⟨rfl, hb i (List.mem_cons_self i rest)⟩] at hun
        exact absurd hun (by simp)
      · rw [if_neg hc]
        exact ih visit hbrest

/-- Phase 1 visits every listed unvisited device of the current depth with
a non-zero root-hub port. -/
theorem scanPhase1_complete (devs : List (Option NativeDevInfo)) (depth : Nat) :
    ∀ (idxs : List Nat) (visit : List Bool) (i : Nat) (di : NativeDevInfo),
      (∀ k ∈ idxs, k < visit.length) →
      i ∈ idxs → devs.getD i none = some di → di.path.depth = depth →
      ROOTHUB_PORT di.path ≠ 0 →
      (scanPhase1 devs depth idxs visit).1.getD i false = true := by
  intro idxs
  induction idxs with
  | nil => intro visit i di hb hmem; exact absurd hmem (by simp)
  | cons j rest ih =>
    intro visit i di hb hmem hdev hdep hport
    have hbrest : ∀ k ∈ rest, k < visit.length :=
      fun k hk => hb k (List.mem_cons_of_mem j hk)
    cases hdi : devs.getD j none with
    | none =>
      simp only [scanPhase1, hdi]
      rcases List.mem_cons.mp hmem with rfl | hmem'
      · exact absurd hdev (by rw [hdi]; simp)
      · exact ih visit i di hbrest hmem' hdev hdep hport
    | some dj =>
      simp only [scanPhase1, hdi]
      by_cases hc : visit.getD j false = false ∧ dj.path.depth = depth ∧
          ROOTHUB_PORT dj.path ≠ 0
      · rw [if_pos hc]
        have hbrest' : ∀ k ∈ rest, k < (visit.set j true).length := by
          rw [List.length_set]; exact hbrest
        show (scanPhase1 devs depth rest (visit.set j true)).1.getD i false = true
        rcases List.mem_cons.mp hmem with rfl | hmem'
        · refine scanPhase1_mono devs depth rest _ i ?_
          rw [getD_set_eq]
          rw [if_pos ⟨rfl, hb i (List.mem_cons_self i rest)⟩]
        · exact ih (visit.set j true) i di hbrest' hmem' hdev hdep hport
      · rw [if_neg hc]
        rcases List.mem_cons.mp hmem with rfl | hmem'
        · have hdij : dj = di := by
            rw [hdi] at hdev
            exact Option.some.inj hdev
          subst hdij
          have hvis : visit.getD i false = true := by
            rcases Bool.eq_false_or_eq_true (visit.getD i false) with ht | hf
            · exact ht
            · exact absurd ⟨hf, hdep, hport⟩ hc
          exact scanPhase1_mono devs depth rest visit i hvis
        · exact ih visit i di hbrest hmem' hdev hdep hport

/-- A `getD` with fallback `none` returning `some` implies the index is in
range. -/
theorem getD_some_lt (devs : List (Option NativeDevInfo)) (i : Nat)
    (di : NativeDevInfo) (h : devs.getD i none = some di) : i < devs.length := by
  by_contra hge
  rw [List.getD_eq_getElem?_getD, List.getElem?_eq_none (Nat.le_of_not_lt hge)] at h
  exact absurd h (by simp)

/-- The properties of the recursive `internal_scan` call that the phase-2
loop relies on; `internal_scan` itself is shown to satisfy them (at
sufficient fuel) by induction below. -/
structure ScanRecurProps (devs : List (Option NativeDevInfo)) (depth : Nat)
    (recur : List Bool → List Bool × List (Nat × NativeDevInfo)) : Prop where
  rlen : ∀ v, (recur v).1.length = v.length
  rmono : ∀ v j, v.getD j false = true → (recur v).1.getD j false = true
  rem : ∀ v, v.length = devs.length → ∀ e ∈ (recur v).2,
    devs.getD e.1 none = some e.2 ∧ ROOTHUB_PORT e.2.path ≠ 0 ∧
    depth + 1 ≤ e.2.path.depth ∧ e.2.path.depth < USB_MAX_TIERS ∧
    v.getD e.1 false = false ∧ (recur v).1.getD e.1 false = true
  rnodup : ∀ v, v.length = devs.length → ((recur v).2.map Prod.fst).Nodup
  rsorted : ∀ v, v.length = devs.length →
    (recur v).2.Pairwise (fun a b => a.2.path.depth ≤ b.2.path.depth)
  rcomplete : ∀ v, v.length = devs.length → ∀ i di, devs.getD i none = some di →
    ROOTHUB_PORT di.path ≠ 0 → depth + 1 ≤ di.path.depth →
    di.path.depth < USB_MAX_TIERS → (recur v).1.getD i false = true

/-- Phase 2 preserves the visit array's length (given the recursion does). -/
theorem scanPhase2_length (devs : List (Option NativeDevInfo)) (depth : Nat)
    (recur : List Bool → List Bool × List (Nat × NativeDevInfo))
    (hrlen : ∀ v, (recur v).1.length = v.length) :
    ∀ (idxs : List Nat) (visit : List Bool),
      (scanPhase2 devs depth recur idxs visit).1.length = visit.length := by
  intro idxs
  induction idxs with
  | nil => intro visit; rfl
  | cons i rest ih =>
    intro visit
    cases hdi : devs.getD i none with
    | none => simp only [scanPhase2, hdi]; exact ih visit
    | some di =>
      simp only [scanPhase2, hdi]
      by_cases hc : visit.getD i false = false ∧ depth < di.path.depth ∧
          ROOTHUB_PORT di.path ≠ 0
      · rw [if_pos hc]
        show (scanPhase2 devs depth recur rest (recur visit).1).1.length =
          visit.length
        rw [ih (recur visit).1, hrlen visit]
      · rw [if_neg hc]; exact ih visit

/-- Phase 2 never clears a visit mark (given the recursion does not). -/
theorem scanPhase2_mono (devs : List (Option NativeDevInfo)) (depth : Nat)
    (recur : List Bool → List Bool × List (Nat × NativeDevInfo))
    (hrmono : ∀ v j, v.getD j false = true → (recur v).1.getD j false = true) :
    ∀ (idxs : List Nat) (visit : List Bool) (j : Nat),
      visit.getD j false = true →
      (scanPhase2 devs depth recur idxs visit).1.getD j false = true := by
  intro idxs
  induction idxs with
  | nil => intro visit j h; exact h
  | cons i rest ih =>
    intro visit j h
    cases hdi : devs.getD i none with
    | none => simp only [scanPhase2, hdi]; exact ih visit j h
    | some di =>
      simp only [scanPhase2, hdi]
      by_cases hc : visit.getD i false = false ∧ depth < di.path.depth ∧
          ROOTHUB_PORT di.path ≠ 0
      · rw [if_pos hc]
        exact ih (recur visit).1 j (hrmono visit j h)
      · rw [if_neg hc]; exact ih visit j h

/-- When every candidate device of the deeper tiers is already visited, the
phase-2 loop emits nothing (each recursion finds nothing unvisited). -/
theorem scanPhase2_em_nil (devs : List (Option NativeDevInfo)) (depth : Nat)
    (recur : List Bool → List Bool × List (Nat × NativeDevInfo))
    (hp : ScanRecurProps devs depth recur) :
    ∀ (idxs : List Nat) (visit : List Bool), visit.length = devs.length →
      (∀ i di, devs.getD i none = some di → ROOTHUB_PORT di.path ≠ 0 →
        depth + 1 ≤ di.path.depth → di.path.depth < USB_MAX_TIERS →
        visit.getD i false = true) →
      (scanPhase2 devs depth recur idxs visit).2 = [] := by
  intro idxs
  induction idxs with
  | nil => intro visit hv hall; rfl
  | cons i rest ih =>
    intro visit hv hall
    cases hdi : devs.getD i none with
    | none => simp only [scanPhase2, hdi]; exact ih visit hv hall
    | some di =>
      simp only [scanPhase2, hdi]
      by_cases hc : visit.getD i false = false ∧ depth < di.path.depth ∧
          ROOTHUB_PORT di.path ≠ 0
      · rw [if_pos hc]
        have hout : (recur visit).2 = [] := by
          rw [List.eq_nil_iff_forall_not_mem]
          intro e he
          have h := hp.rem visit hv e he
          have := hall e.1 e.2 h.1 h.2.1 h.2.2.1 h.2.2.2.1
          rw [this] at h
          exact absurd h.2.2.2.2.1 (by simp)
        have hall' : ∀ i di, devs.getD i none = some di →
            ROOTHUB_PORT di.path ≠ 0 → depth + 1 ≤ di.path.depth →
            di.path.depth < USB_MAX_TIERS →
            (recur visit).1.getD i false = true :=
          fun i di h1 h2 h3 h4 => hp.rmono visit i (hall i di h1 h2 h3 h4)
        have hv' : (recur visit).1.length = devs.length := by
          rw [hp.rlen visit]; exact hv
        show ((recur visit).2 ++
          (scanPhase2 devs depth recur rest (recur visit).1).2) = []
        rw [hout, ih (recur visit).1 hv' hall', List.append_nil]
      · rw [if_neg hc]; exact ih visit hv hall

/-- Every phase-2 emission is a deeper-tier (but below `USB_MAX_TIERS`)
device of the list with non-zero root-hub port, unvisited on entry to the
loop and visited afterwards. -/
theorem scanPhase2_em (devs : List (Option NativeDevInfo)) (depth : Nat)
    (recur : List Bool → List Bool × List (Nat × NativeDevInfo))
    (hp : ScanRecurProps devs depth recur) :
    ∀ (idxs : List Nat) (visit : List Bool), visit.length = devs.length →
      ∀ e ∈ (scanPhase2 devs depth recur idxs visit).2,
        devs.getD e.1 none = some e.2 ∧ ROOTHUB_PORT e.2.path ≠ 0 ∧
        depth + 1 ≤ e.2.path.depth ∧ e.2.path.depth < USB_MAX_TIERS ∧
        visit.getD e.1 false = false ∧
        (scanPhase2 devs depth recur idxs visit).1.getD e.1 false = true := by
  intro idxs
  induction idxs with
  | nil => intro visit hv e he; exact absurd he (by simp [scanPhase2])
  | cons i rest ih =>
    intro visit hv e he
    cases hdi : devs.getD i none with
    | none => simp only [scanPhase2, hdi] at he ⊢; exact ih visit hv e he
    | some di =>
      simp only [scanPhase2, hdi] at he ⊢
      by_cases hc : visit.getD i false = false ∧ depth < di.path.depth ∧
          ROOTHUB_PORT di.path ≠ 0
      · rw [if_pos hc] at he ⊢
        have hv' : (recur visit).1.length = devs.length := by
          rw [hp.rlen visit]; exact hv
        rcases List.mem_append.mp he with he1 | he2
        · have h := hp.rem visit hv e he1
          exact ⟨h.1, h.2.1, h.2.2.1, h.2.2.2.1, h.2.2.2.2.1,
            scanPhase2_mono devs depth recur hp.rmono rest (recur visit).1 e.1
              h.2.2.2.2.2⟩
        · have h := ih (recur visit).1 hv' e he2
          refine ⟨h.1, h.2.1, h.2.2.1, h.2.2.2.1, ?_, h.2.2.2.2.2⟩
          rcases Bool.eq_false_or_eq_true (visit.getD e.1 false) with ht | hf
          · have := hp.rmono visit e.1 ht
            rw [h.2.2.2.2.1] at this
            exact absurd this (by simp)
          · exact hf
      · rw [if_neg hc] at he ⊢
        exact ih visit hv e he

/-- Phase-2 emissions carry pairwise-distinct device indices: the first
triggered recursion visits every deeper candidate, so later recursions emit
nothing. -/
theorem scanPhase2_nodup (devs : List (Option NativeDevInfo)) (depth : Nat)
    (recur : List Bool → List Bool × List (Nat × NativeDevInfo))
    (hp : ScanRecurProps devs depth recur) :
    ∀ (idxs : List Nat) (visit : List Bool), visit.length = devs.length →
      ((scanPhase2 devs depth recur idxs visit).2.map Prod.fst).Nodup := by
  intro idxs
  induction idxs with
  | nil => intro visit hv; simp [scanPhase2]
  | cons i rest ih =>
    intro visit hv
    cases hdi : devs.getD i none with
    | none => simp only [scanPhase2, hdi]; exact ih visit hv
    | some di =>
      simp only [scanPhase2, hdi]
      by_cases hc : visit.getD i false = false ∧ depth < di.path.depth ∧
          ROOTHUB_PORT di.path ≠ 0
      · rw [if_pos hc]
        have hv' : (recur visit).1.length = devs.length := by
          rw [hp.rlen visit]; exact hv
        have hnil : (scanPhase2 devs depth recur rest (recur visit).1).2 = [] :=
          scanPhase2_em_nil devs depth recur hp rest (recur visit).1 hv'
            (fun k dk h1 h2 h3 h4 => hp.rcomplete visit hv k dk h1 h2 h3 h4)
        show (((recur visit).2 ++
          (scanPhase2 devs depth recur rest (recur visit).1).2).map Prod.fst).Nodup
        rw [hnil, List.append_nil]
        exact hp.rnodup visit hv
      · rw [if_neg hc]; exact ih visit hv

/-- Phase-2 emissions are sorted by tier, for the same reason. -/
theorem scanPhase2_sorted (devs : List (Option NativeDevInfo)) (depth : Nat)
    (recur : List Bool → List Bool × List (Nat × NativeDevInfo))
    (hp : ScanRecurProps devs depth recur) :
    ∀ (idxs : List Nat) (visit : List Bool), visit.length = devs.length →
      (scanPhase2 devs depth recur idxs visit).2.Pairwise
        (fun a b => a.2.path.depth ≤ b.2.path.depth) := by
  intro idxs
  induction idxs with
  | nil => intro visit hv; simp [scanPhase2]
  | cons i rest ih =>
    intro visit hv
    cases hdi : devs.getD i none with
    | none => simp only [scanPhase2, hdi]; exact ih visit hv
    | some di =>
      simp only [scanPhase2, hdi]
      by_cases hc : visit.getD i false = false ∧ depth < di.path.depth ∧
          ROOTHUB_PORT di.path ≠ 0
      · rw [if_pos hc]
        have hv' : (recur visit).1.length = devs.length := by
          rw [hp.rlen visit]; exact hv
        have hnil : (scanPhase2 devs depth recur rest (recur visit).1).2 = [] :=
          scanPhase2_em_nil devs depth recur hp rest (recur visit).1 hv'
            (fun k dk h1 h2 h3 h4 => hp.rcomplete visit hv k dk h1 h2 h3 h4)
        show ((recur visit).2 ++
          (scanPhase2 devs depth recur rest (recur visit).1).2).Pairwise
            (fun a b => a.2.path.depth ≤ b.2.path.depth)
        rw [hnil, List.append_nil]
        exact hp.rsorted visit hv
      · rw [if_neg hc]; exact ih visit hv

/-- Phase 2 visits every listed deeper-tier candidate. -/
theorem scanPhase2_complete (devs : List (Option NativeDevInfo)) (depth : Nat)
    (recur : List Bool → List Bool × List (Nat × NativeDevInfo))
    (hp : ScanRecurProps devs depth recur) :
    ∀ (idxs : List Nat) (visit : List Bool), visit.length = devs.length →
      ∀ i di, i ∈ idxs → devs.getD i none = some di →
        ROOTHUB_PORT di.path ≠ 0 → depth + 1 ≤ di.path.depth →
        di.path.depth < USB_MAX_TIERS →
        (scanPhase2 devs depth recur idxs visit).1.getD i false = true := by
  intro idxs
  induction idxs with
  | nil => intro visit hv i di hmem; exact absurd hmem (by simp)
  | cons j rest ih =>
    intro visit hv i di hmem hsome hport hdge hdlt
    cases hdi : devs.getD j none with
    | none =>
      simp only [scanPhase2, hdi]
      rcases List.mem_cons.mp hmem with rfl | hmem'
      · exact absurd hsome (by rw [hdi]; simp)
      · exact ih visit hv i di hmem' hsome hport hdge hdlt
    | some dj =>
      simp only [scanPhase2, hdi]
      by_cases hc : visit.getD j false = false ∧ depth < dj.path.depth ∧
          ROOTHUB_PORT dj.path ≠ 0
      · rw [if_pos hc]
        have hvis := hp.rcomplete visit hv i di hsome hport hdge hdlt
        exact scanPhase2_mono devs depth recur hp.rmono rest (recur visit).1 i hvis
      · rw [if_neg hc]
        rcases List.mem_cons.mp hmem with rfl | hmem'
        · have hdij : dj = di := by
            rw [hdi] at hsome
            exact Option.some.inj hsome
          subst hdij
          have hvis : visit.getD i false = true := by
            rcases Bool.eq_false_or_eq_true (visit.getD i false) with ht | hf
            · exact ht
            · exact absurd ⟨hf, by omega, hport⟩ hc
          exact scanPhase2_mono devs depth recur hp.rmono rest visit i hvis
        · exact ih visit hv i di hmem' hsome hport hdge hdlt

/-- The scanner preserves the visit array's length. -/
theorem internal_scan_length (devs : List (Option NativeDevInfo)) :
    ∀ (fuel depth : Nat) (visit : List Bool),
      (internal_scan devs fuel depth visit).1.length = visit.length := by
  intro fuel
  induction fuel with
  | zero => intro depth visit; rfl
  | succ fuel ih =>
    intro depth visit
    by_cases hge : USB_MAX_TIERS ≤ depth
    · simp only [internal_scan]; rw [if_pos hge]
    · simp only [internal_scan]
      rw [if_neg hge]
      show (scanPhase2 devs depth (internal_scan devs fuel (depth + 1))
        (List.range devs.length)
        (scanPhase1 devs depth (List.range devs.length) visit).1).1.length =
        visit.length
      rw [scanPhase2_length devs depth _ (fun v => ih (depth + 1) v),
        scanPhase1_length]

/-- The scanner never clears a visit mark. -/
theorem internal_scan_mono (devs : List (Option NativeDevInfo)) :
    ∀ (fuel depth : Nat) (visit : List Bool) (j : Nat),
      visit.getD j false = true →
      (internal_scan devs fuel depth visit).1.getD j false = true := by
  intro fuel
  induction fuel with
  | zero => intro depth visit j h; exact h
  | succ fuel ih =>
    intro depth visit j h
    by_cases hge : USB_MAX_TIERS ≤ depth
    · simp only [internal_scan]; rw [if_pos hge]; exact h
    · simp only [internal_scan]
      rw [if_neg hge]
      exact scanPhase2_mono devs depth _ (fun v k hk => ih (depth + 1) v k hk)
        (List.range devs.length) _ j
        (scanPhase1_mono devs depth (List.range devs.length) visit j h)

/-- The main inductive invariant of the Topology Scanner, at sufficient fuel
(`8 ≤ fuel + depth` holds along the whole recursion of the top-level call):
every emission is a listed device with non-zero root-hub port and tier in
`[depth, USB_MAX_TIERS)`, unvisited before and visited after; emitted
indices are pairwise distinct; emissions are sorted by tier; and every
listed unvisited candidate of those tiers ends up visited. -/
theorem internal_scan_spec (devs : List (Option NativeDevInfo)) :
    ∀ (fuel depth : Nat), 8 ≤ fuel + depth →
      ∀ visit : List Bool, visit.length = devs.length →
      (∀ e ∈ (internal_scan devs fuel depth visit).2,
        devs.getD e.1 none = some e.2 ∧ ROOTHUB_PORT e.2.path ≠ 0 ∧
        depth ≤ e.2.path.depth ∧ e.2.path.depth < USB_MAX_TIERS ∧
        visit.getD e.1 false = false ∧
        (internal_scan devs fuel depth visit).1.getD e.1 false = true) ∧
      (((internal_scan devs fuel depth visit).2.map Prod.fst).Nodup) ∧
      ((internal_scan devs fuel depth visit).2.Pairwise
        (fun a b => a.2.path.depth ≤ b.2.path.depth)) ∧
      (∀ i di, devs.getD i none = some di → ROOTHUB_PORT di.path ≠ 0 →
        depth ≤ di.path.depth → di.path.depth < USB_MAX_TIERS →
        (internal_scan devs fuel depth visit).1.getD i false = true) := by
  intro fuel
  induction fuel with
  | zero =>
    intro depth hfd visit hv
    refine ⟨fun e he => absurd he (by simp [internal_scan]), by simp [internal_scan],
      by simp [internal_scan], fun i di h1 h2 h3 h4 => ?_⟩
    exfalso
    have : (8 : Nat) ≤ depth := by omega
    unfold USB_MAX_TIERS at h4
    omega
  | succ fuel ih =>
    intro depth hfd visit hv
    by_cases hge : USB_MAX_TIERS ≤ depth
    · simp only [internal_scan]
      rw [if_pos hge]
      refine ⟨fun e he => absurd he (by simp), by simp, by simp,
        fun i di h1 h2 h3 h4 => ?_⟩
      exfalso
      omega
    · have hdepth7 : depth < USB_MAX_TIERS := Nat.lt_of_not_le hge
      have hprops : ScanRecurProps devs depth (internal_scan devs fuel (depth + 1)) :=
        { rlen := fun v => internal_scan_length devs fuel (depth + 1) v
          rmono := fun v j hj => internal_scan_mono devs fuel (depth + 1) v j hj
          rem := fun v hv' => (ih (depth + 1) (by omega) v hv').1
          rnodup := fun v hv' => (ih (depth + 1) (by omega) v hv').2.1
          rsorted := fun v hv' => (ih (depth + 1) (by omega) v hv').2.2.1
          rcomplete := fun v hv' => (ih (depth + 1) (by omega) v hv').2.2.2 }
      have hb : ∀ k ∈ List.range devs.length, k < visit.length := by
        intro k hk
        rw [hv]
        exact List.mem_range.mp hk
      have hp1len : (scanPhase1 devs depth (List.range devs.length) visit).1.length =
          devs.length := by
        rw [scanPhase1_length, hv]
      simp only [internal_scan]
      rw [if_neg hge]
      refine ⟨?_, ?_, ?_, ?_⟩
      · -- emission characterization
        intro e he
        rcases List.mem_append.mp he with he1 | he2
        · have h := scanPhase1_em devs depth (List.range devs.length) visit hb e he1
          refine ⟨h.2.1, h.2.2.2.1, by omega, by rw [h.2.2.1]; exact hdepth7,
            h.2.2.2.2.1, ?_⟩
          exact scanPhase2_mono devs depth _ hprops.rmono (List.range devs.length)
            _ e.1 h.2.2.2.2.2
        · have h := scanPhase2_em devs depth _ hprops (List.range devs.length)
            _ hp1len e he2
          refine ⟨h.1, h.2.1, by omega, h.2.2.2.1, ?_, h.2.2.2.2.2⟩
          rcases Bool.eq_false_or_eq_true (visit.getD e.1 false) with ht | hf
          · have := scanPhase1_mono devs depth (List.range devs.length) visit e.1 ht
            rw [h.2.2.2.2.1] at this
            exact absurd this (by simp)
          · exact hf
      · -- pairwise-distinct indices
        rw [List.map_append]
        refine List.Nodup.append
          (scanPhase1_nodup devs depth (List.range devs.length) visit hb)
          (scanPhase2_nodup devs depth _ hprops (List.range devs.length) _ hp1len)
          ?_
        intro a ha hb'
        rcases List.mem_map.mp ha with ⟨e, he, hea⟩
        rcases List.mem_map.mp hb' with ⟨e', he', hea'⟩
        have h1 := scanPhase1_em devs depth (List.range devs.length) visit hb e he
        have h2 := scanPhase2_em devs depth _ hprops (List.range devs.length)
          _ hp1len e' he'
        have hvis := h1.2.2.2.2.2
        rw [hea] at hvis
        have hunvis := h2.2.2.2.2.1
        rw [hea'] at hunvis
        rw [hvis] at hunvis
        exact absurd hunvis (by simp)
      · -- sorted by tier
        rw [List.pairwise_append]
        refine ⟨?_, scanPhase2_sorted devs depth _ hprops (List.range devs.length)
          _ hp1len, ?_⟩
        · refine List.pairwise_of_forall_mem_list ?_
          intro a ha b hb'
          have h1 := scanPhase1_em devs depth (List.range devs.length) visit hb a ha
          have h2 := scanPhase1_em devs depth (List.range devs.length) visit hb b hb'
          rw [h1.2.2.1, h2.2.2.1]
        · intro a ha b hb'
          have h1 := scanPhase1_em devs depth (List.range devs.length) visit hb a ha
          have h2 := scanPhase2_em devs depth _ hprops (List.range devs.length)
            _ hp1len b hb'
          rw [h1.2.2.1]
          omega
      · -- completeness
        intro i di hsome hport hdge hdlt
        have hi : i < devs.length := getD_some_lt devs i di hsome
        have himem : i ∈ List.range devs.length := List.mem_range.mpr hi
        rcases Nat.eq_or_lt_of_le hdge with heq | hlt
        · have hvis := scanPhase1_complete devs depth (List.range devs.length)
            visit i di hb himem hsome heq.symm hport
          exact scanPhase2_mono devs depth _ hprops.rmono (List.range devs.length)
            _ i hvis
        · exact scanPhase2_complete devs depth _ hprops (List.range devs.length)
            _ hp1len i di himem hsome hport hlt hdlt

/-- C8: on every device list, the Topology Scanner emits devices in
non-decreasing `path.depth` order (so all tier-`d` devices precede any
tier-`d+1` device), each listed device is emitted at most once (pairwise
distinct device-list indices), and no device of depth ≥ `USB_MAX_TIERS` (7)
is ever emitted. -/
theorem usb_dev_scan_order_C8 :
    ∀ devs : List (Option NativeDevInfo),
      ((usb_dev_scan_dev devs).map Prod.fst).Nodup ∧
      ((usb_dev_scan_dev devs).Pairwise
        (fun a b => a.2.path.depth ≤ b.2.path.depth)) ∧
      ∀ e ∈ usb_dev_scan_dev devs, e.2.path.depth < USB_MAX_TIERS := by
  intro devs
  have h := internal_scan_spec devs USB_MAX_TIERS 1 (by decide)
    (List.replicate devs.length false) (by rw [List.length_replicate])
  exact ⟨h.2.1, h.2.2.1, fun e he => (h.1 e he).2.2.2.1⟩

/-! ## C7: `usb_dev_comp_cb` (asynchronous completion) -/

/-- libusb transfer completion statuses (`LIBUSB_TRANSFER_*`, external
library); `unknown` models any other value, which the source's `default:`
arm logs and then treats like a completed transfer. -/
inductive TrnStatus
  | completed | error | timedOut | cancelled | stall | noDevice | overflow
  | unknown
  deriving Repr, DecidableEq

/-- One `iso_packet_desc` entry of a libusb transfer. -/
structure IsoPacket where
  length : Nat
  actual_length : Nat
  deriving Repr, DecidableEq

/-- The parts of `struct libusb_transfer` read by the completion callback:
status, whether the transfer is isochronous, the total `actual_length`, and
the iso packet descriptors. -/
structure CompTrn where
  status : TrnStatus
  isIso : Bool
  actual_length : Nat
  iso_packet_desc : List IsoPacket
  deriving Repr, DecidableEq

/-- The parts of the Request (`struct usb_dev_req`) read by the completion
callback: block span, direction (`r->in == TOKEN_IN`), and the linearized
transfer buffer. -/
structure CompReq where
  blk_head : Nat
  blk_tail : Nat
  inDir : Bool
  buffer : List Nat
  deriving Repr, DecidableEq

/-- The parts of the `usb_xfer` used by the completion callback: endpoint
id (lock key), ring capacity and the block ring. -/
structure DataXfer where
  epid : Nat
  max_blk_cnt : Nat
  data : List UsbBlock
  deriving Repr, DecidableEq

/-- Front-end callback context for one completion: whether `notify_cb` /
`intr_cb` are registered, the value `notify_cb` returns (`do_intr`), and
the `usb_native_is_device_existed` oracle consulted on transport ERROR. -/
structure CompCtx where
  hasNotify : Bool
  hasIntr : Bool
  notifyRc : Int
  deviceExisted : Bool
  deriving Repr, DecidableEq

/-- Observable outcome of `usb_dev_comp_cb`: final xfer status, block ring,
whether the per-endpoint lock was taken (only on the scatter path), whether
`notify_cb` / `intr_cb` ran, whether `unlock_ep_cb` ran, and whether the
request was released (`xfer->reqs[blk_head]` cleared and freed). -/
structure CompResult where
  status : UsbErr
  blocks : List UsbBlock
  locked : Bool
  notified : Bool
  intr : Bool
  unlocked : Bool
  reqFreed : Bool
  deriving Repr, DecidableEq

/-- The `stall_out` marking loop of `usb_dev_comp_cb` (usb_pmapper.c:296-305):
walk the request's block span and set every block `USB_BLOCK_HANDLED`.
Fueled; fuel `max_blk_cnt + 1` covers every walk whose `blk_head`/`blk_tail`
are in-range ring indices (proved below). -/
def markStallLoop (head tail size : Nat) : Nat → Nat → List UsbBlock →
    Option (List UsbBlock)
  | 0, _, _ => none
  | fuel + 1, idx, blocks =>
    if index_valid head tail size idx then
      markStallLoop head tail size fuel (index_inc idx size)
        (blocks.set idx { blocks.getD idx default with stat := BlockStat.handled })
    else some blocks

/-- The scatter loop of `usb_dev_comp_cb` (usb_pmapper.c:251-294), fueled.
The flag distinguishes the top of the outer `while (index_valid …)` (where
an isochronous transfer refreshes `buf`, `buf_idx` and `done` from the
current iso packet — `libusb_get_iso_packet_buffer_simple` addresses packet
`i` at offset `i * iso_packet_desc[0].length`) from an iteration of the
inner `do { … } while (block->type == USB_DATA_PART)` body.  In the body:
`d = min(done, blen)`; `Part`/`Full` blocks receive `d` bytes from the
request buffer when the direction is IN (advancing `buf_idx`); other types
(the Link-TRB arm) decrement the iso index instead (a C `int` decrement,
modelled saturating at 0); then `done -= d`, `blen -= d`, `bdone = d`, the
block is marked `Handled` and the ring index advances. -/
def compScatterLoop (isIso inDir : Bool) (ipd : List IsoPacket)
    (rbuf : List Nat) (head tail size : Nat) :
    Nat → Bool → List UsbBlock → Nat → Nat → List Nat → Nat → Nat →
    Option (List UsbBlock)
  | 0, _, _, _, _, _, _, _ => none
  | fuel + 1, true, blocks, idx, i, buf, bufIdx, done =>
    if index_valid head tail size idx then
      if isIso then
        compScatterLoop isIso inDir ipd rbuf head tail size fuel false blocks idx
          (i + 1) (rbuf.drop (i * (ipd.getD 0 ⟨0, 0⟩).length)) 0
          ((ipd.getD i ⟨0, 0⟩).actual_length)
      else
        compScatterLoop isIso inDir ipd rbuf head tail size fuel false blocks idx
          i buf bufIdx done
    else some blocks
  | fuel + 1, false, blocks, idx, i, buf, bufIdx, done =>
    let block := blocks.getD idx default
    let d := min done block.blen
    let withCopy :=
      if block.btype = BlockType.part ∨ block.btype = BlockType.full then
        (if inDir then
          ({ block with buf := (buf.drop bufIdx).take d ++ block.buf.drop d },
            bufIdx + d, i)
        else (block, bufIdx, i))
      else (block, bufIdx, i - 1)
    let blocks' := blocks.set idx
      { withCopy.1 with
        blen := block.blen - d, bdone := d, stat := BlockStat.handled }
    compScatterLoop isIso inDir ipd rbuf head tail size fuel
      (block.btype ≠ BlockType.part) blocks' (index_inc idx size) withCopy.2.2
      buf withCopy.2.1 (done - d)

/-- Shallow embedding of `usb_dev_comp_cb` (usb_pmapper.c:166-327).  The
status dispatch in source order; results record the per-path side effects:
- STALL: status STALLED, `stall_out` marking, then `out` (notify/intr) and
  `cancel_out` (unlock, free);
- NO_DEVICE: SHORT_XFER, straight to `out`;
- ERROR with the device gone: straight to `cancel_out` (status keeps the
  NORMAL_COMPLETION assigned at entry, no notify); ERROR otherwise: as STALL;
- CANCELLED: IOERROR, `cancel_out`;
- TIMED_OUT / OVERFLOW: TIMEOUT / BAD_BUFSIZE, `out`;
- COMPLETED (and the logged-only `default`): per-endpoint lock, scatter
  loop, `out`, `cancel_out`.
`none` models divergence of the fueled scatter loop (which the C code
exhibits on a ring whose span contains only `Part` blocks). -/
def usb_dev_comp_cb (fuel : Nat) (ctx : CompCtx) (trn : CompTrn) (r : CompReq)
    (x : DataXfer) : Option CompResult :=
  let notifyOut : Bool := ctx.hasNotify
  let intrOut : Bool := ctx.hasNotify && decide (ctx.notifyRc ≠ 0) && ctx.hasIntr
  let stallPath : Option CompResult :=
    match markStallLoop r.blk_head r.blk_tail x.max_blk_cnt (x.max_blk_cnt + 1)
        r.blk_head x.data with
    | none => none
    | some bs =>
      some { status := UsbErr.stalled, blocks := bs, locked := false,
             notified := notifyOut, intr := intrOut, unlocked := true,
             reqFreed := true }
  match trn.status with
  | TrnStatus.stall => stallPath
  | TrnStatus.noDevice =>
    some { status := UsbErr.shortXfer, blocks := x.data, locked := false,
           notified := notifyOut, intr := intrOut, unlocked := true,
           reqFreed := true }
  | TrnStatus.error =>
    if ctx.deviceExisted = false then
      some { status := UsbErr.normalCompletion, blocks := x.data, locked := false,
             notified := false, intr := false, unlocked := true, reqFreed := true }
    else stallPath
  | TrnStatus.cancelled =>
    some { status := UsbErr.ioerror, blocks := x.data, locked := false,
           notified := false, intr := false, unlocked := true, reqFreed := true }
  | TrnStatus.timedOut =>
    some { status := UsbErr.timeout, blocks := x.data, locked := false,
           notified := notifyOut, intr := intrOut, unlocked := true,
           reqFreed := true }
  | TrnStatus.overflow =>
    some { status := UsbErr.badBufsize, blocks := x.data, locked := false,
           notified := notifyOut, intr := intrOut, unlocked := true,
           reqFreed := true }
  | _ =>
    match compScatterLoop trn.isIso r.inDir trn.iso_packet_desc r.buffer
        r.blk_head r.blk_tail x.max_blk_cnt fuel true x.data r.blk_head 0
        r.buffer 0 trn.actual_length with
    | none => none
    | some bs =>
      some { status := UsbErr.normalCompletion, blocks := bs, locked := true,
             notified := notifyOut, intr := intrOut, unlocked := true,
             reqFreed := true }

/-- The stall-marking loop never un-marks a handled block. -/
theorem markStallLoop_mono (head tail size : Nat) :
    ∀ (fuel idx : Nat) (blocks bs : List UsbBlock) (j : Nat),
      markStallLoop head tail size fuel idx blocks = some bs →
      (blocks.getD j default).stat = BlockStat.handled →
      (bs.getD j default).stat = BlockStat.handled := by
  intro fuel
  induction fuel with
  | zero => intro idx blocks bs j h; exact absurd h (by simp [markStallLoop])
  | succ fuel ih =>
    intro idx blocks bs j h hst
    simp only [markStallLoop] at h
    by_cases hv : index_valid head tail size idx = true
    · rw [if_pos hv] at h
      refine ih (index_inc idx size) _ bs j h ?_
      rw [getD_set_eq_ite]
      by_cases hij : idx = j ∧ j < blocks.length
      · rw [if_pos hij]
      · rw [if_neg hij]; exact hst
    · rw [if_neg hv] at h
      cases Option.some.inj h
      exact hst

/-- The stall-marking loop touches only block states: `buf`, `blen` and
`bdone` of every slot are preserved. -/
theorem markStallLoop_fields (head tail size : Nat) :
    ∀ (fuel idx : Nat) (blocks bs : List UsbBlock),
      markStallLoop head tail size fuel idx blocks = some bs →
      ∀ j, (bs.getD j default).buf = (blocks.getD j default).buf ∧
        (bs.getD j default).blen = (blocks.getD j default).blen ∧
        (bs.getD j default).bdone = (blocks.getD j default).bdone := by
  intro fuel
  induction fuel with
  | zero => intro idx blocks bs h; exact absurd h (by simp [markStallLoop])
  | succ fuel ih =>
    intro idx blocks bs h j
    simp only [markStallLoop] at h
    by_cases hv : index_valid head tail size idx = true
    · rw [if_pos hv] at h
      have h' := ih (index_inc idx size) _ bs h j
      rw [getD_set_eq_ite] at h'
      by_cases hij : idx = j ∧ j < blocks.length
      · rw [if_pos hij] at h'
        rcases hij with ⟨hij, _⟩
        subst hij
        exact h'
      · rw [if_neg hij] at h'
        exact h'
    · rw [if_neg hv] at h
      cases Option.some.inj h
      exact ⟨rfl, rfl, rfl⟩

/-- Walk coverage, unwrapped span (`head ≤ tail < size`): starting at any
`idx ≥ head`, the loop terminates and marks `[idx, tail)`. -/
theorem markStallLoop_walk_le (head tail size : Nat) (hht : head ≤ tail)
    (hts : tail < size) :
    ∀ (n fuel idx : Nat) (blocks : List UsbBlock),
      blocks.length = size → tail - idx = n → head ≤ idx → n < fuel →
      ∃ bs, markStallLoop head tail size fuel idx blocks = some bs ∧
        ∀ j, idx ≤ j → j < tail → (bs.getD j default).stat = BlockStat.handled := by
  intro n
  induction n with
  | zero =>
    intro fuel idx blocks hlen hn hhi hf
    cases fuel with
    | zero => omega
    | succ fuel =>
      have hv : ¬ (index_valid head tail size idx = true) := by
        simp only [index_valid]
        rw [if_pos hht]
        simp only [decide_eq_true_eq]
        rintro ⟨_, hlt⟩
        omega
      refine ⟨blocks, ?_, fun j hj1 hj2 => by omega⟩
      simp only [markStallLoop]
      rw [if_neg hv]
  | succ n ih =>
    intro fuel idx blocks hlen hn hhi hf
    cases fuel with
    | zero => omega
    | succ fuel =>
      have hit : idx < tail := by omega
      have hv : index_valid head tail size idx = true := by
        simp only [index_valid]
        rw [if_pos hht]
        simp only [decide_eq_true_eq]
        exact ⟨hhi, hit⟩
      have hinc : index_inc idx size = idx + 1 := Nat.mod_eq_of_lt (by omega)
      obtain ⟨bs, hbs, hmark⟩ := ih fuel (idx + 1)
        (blocks.set idx { blocks.getD idx default with stat := BlockStat.handled })
        (by rw [List.length_set]; exact hlen) (by omega) (by omega) (by omega)
      refine ⟨bs, ?_, ?_⟩
      · simp only [markStallLoop]
        rw [if_pos hv, hinc]
        exact hbs
      · intro j hj1 hj2
        rcases Nat.eq_or_lt_of_le hj1 with rfl | hlt
        · refine markStallLoop_mono head tail size fuel (idx + 1) _ bs idx hbs ?_
          rw [getD_set_eq_ite]
          rw [if_pos ⟨rfl, by omega⟩]
        · exact hmark j (by omega) hj2

/-- Walk coverage, low part of a wrapped span (`idx ≤ tail < head < size`):
the loop terminates and marks `[idx, tail)`. -/
theorem markStallLoop_walk_low (head tail size : Nat) (hth : tail < head)
    (hhs : head < size) :
    ∀ (n fuel idx : Nat) (blocks : List UsbBlock),
      blocks.length = size → tail - idx = n → idx ≤ tail → n < fuel →
      ∃ bs, markStallLoop head tail size fuel idx blocks = some bs ∧
        ∀ j, idx ≤ j → j < tail → (bs.getD j default).stat = BlockStat.handled := by
  intro n
  induction n with
  | zero =>
    intro fuel idx blocks hlen hn hit hf
    cases fuel with
    | zero => omega
    | succ fuel =>
      have hv : ¬ (index_valid head tail size idx = true) := by
        simp only [index_valid]
        rw [if_neg (by omega : ¬ head ≤ tail)]
        simp only [decide_eq_true_eq]
        rintro (⟨hgi, _⟩ | hlt) <;> omega
      refine ⟨blocks, ?_, fun j hj1 hj2 => by omega⟩
      simp only [markStallLoop]
      rw [if_neg hv]
  | succ n ih =>
    intro fuel idx blocks hlen hn hit hf
    cases fuel with
    | zero => omega
    | succ fuel =>
      have hlt : idx < tail := by omega
      have hv : index_valid head tail size idx = true := by
        simp only [index_valid]
        rw [if_neg (by omega : ¬ head ≤ tail)]
        simp only [decide_eq_true_eq]
        exact Or.inr hlt
      have hinc : index_inc idx size = idx + 1 := Nat.mod_eq_of_lt (by omega)
      obtain ⟨bs, hbs, hmark⟩ := ih fuel (idx + 1)
        (blocks.set idx { blocks.getD idx default with stat := BlockStat.handled })
        (by rw [List.length_set]; exact hlen) (by omega) (by omega) (by omega)
      refine ⟨bs, ?_, ?_⟩
      · simp only [markStallLoop]
        rw [if_pos hv, hinc]
        exact hbs
      · intro j hj1 hj2
        rcases Nat.eq_or_lt_of_le hj1 with rfl | hlt'
        · refine markStallLoop_mono head tail size fuel (idx + 1) _ bs idx hbs ?_
          rw [getD_set_eq_ite]
          rw [if_pos ⟨rfl, by omega⟩]
        · exact hmark j (by omega) hj2

/-- Walk coverage, high part of a wrapped span
(`tail < head ≤ idx < size`): the loop terminates, marks `[idx, size)`,
wraps to 0 and marks `[0, tail)`. -/
theorem markStallLoop_walk_high (head tail size : Nat) (hth : tail < head)
    (hhs : head < size) :
    ∀ (m fuel idx : Nat) (blocks : List UsbBlock),
      blocks.length = size → size - idx = m → head ≤ idx → idx < size →
      tail + m < fuel →
      ∃ bs, markStallLoop head tail size fuel idx blocks = some bs ∧
        (∀ j, idx ≤ j → j < size → (bs.getD j default).stat = BlockStat.handled) ∧
        (∀ j, j < tail → (bs.getD j default).stat = BlockStat.handled) := by
  intro m
  induction m with
  | zero => intro fuel idx blocks hlen hm hhi his hf; omega
  | succ m ih =>
    intro fuel idx blocks hlen hm hhi his hf
    cases fuel with
    | zero => omega
    | succ fuel =>
      have hv : index_valid head tail size idx = true := by
        simp only [index_valid]
        rw [if_neg (by omega : ¬ head ≤ tail)]
        simp only [decide_eq_true_eq]
        exact Or.inl ⟨hhi, his⟩
      by_cases hend : idx + 1 < size
      · have hinc : index_inc idx size = idx + 1 := Nat.mod_eq_of_lt (by omega)
        obtain ⟨bs, hbs, hmark1, hmark2⟩ := ih fuel (idx + 1)
          (blocks.set idx { blocks.getD idx default with stat := BlockStat.handled })
          (by rw [List.length_set]; exact hlen) (by omega) (by omega) hend
          (by omega)
        refine ⟨bs, ?_, ?_, hmark2⟩
        · simp only [markStallLoop]
          rw [if_pos hv, hinc]
          exact hbs
        · intro j hj1 hj2
          rcases Nat.eq_or_lt_of_le hj1 with rfl | hlt'
          · refine markStallLoop_mono head tail size fuel (idx + 1) _ bs idx hbs ?_
            rw [getD_set_eq_ite]
            rw [if_pos ⟨rfl, by omega⟩]
          · exact hmark1 j (by omega) hj2
      · have hsz : idx + 1 = size := by omega
        have hinc : index_inc idx size = 0 := by
          unfold index_inc
          rw [hsz]
          exact Nat.mod_self size
        obtain ⟨bs, hbs, hmark⟩ := markStallLoop_walk_low head tail size hth hhs
          tail fuel 0
          (blocks.set idx { blocks.getD idx default with stat := BlockStat.handled })
          (by rw [List.length_set]; exact hlen) (by omega) (by omega) (by omega)
        refine ⟨bs, ?_, ?_, fun j hj => hmark j (Nat.zero_le j) hj⟩
        · simp only [markStallLoop]
          rw [if_pos hv, hinc]
          exact hbs
        · intro j hj1 hj2
          have hji : j = idx := by omega
          subst hji
          refine markStallLoop_mono head tail size fuel 0 _ bs j hbs ?_
          rw [getD_set_eq_ite]
          rw [if_pos ⟨rfl, by omega⟩]

/-- With in-range `head`/`tail` and a full-size ring, the stall-marking
walk terminates within `size + 1` steps, marks exactly every span index
`USB_BLOCK_HANDLED`, and leaves all data fields untouched. -/
theorem markStallLoop_spec (head tail size : Nat) (blocks : List UsbBlock)
    (hh : head < size) (ht : tail < size) (hlen : blocks.length = size) :
    ∃ bs, markStallLoop head tail size (size + 1) head blocks = some bs ∧
      (∀ j, index_valid head tail size j = true →
        (bs.getD j default).stat = BlockStat.handled) ∧
      ∀ j, (bs.getD j default).buf = (blocks.getD j default).buf ∧
        (bs.getD j default).blen = (blocks.getD j default).blen ∧
        (bs.getD j default).bdone = (blocks.getD j default).bdone := by
  by_cases hht : head ≤ tail
  · obtain ⟨bs, hbs, hmark⟩ := markStallLoop_walk_le head tail size hht ht
      (tail - head) (size + 1) head blocks hlen rfl (Nat.le_refl head) (by omega)
    refine ⟨bs, hbs, ?_, markStallLoop_fields head tail size (size + 1) head
      blocks bs hbs⟩
    intro j hj
    simp only [index_valid] at hj
    rw [if_pos hht] at hj
    simp only [decide_eq_true_eq] at hj
    exact hmark j hj.1 hj.2
  · have hth : tail < head := Nat.lt_of_not_le hht
    obtain ⟨bs, hbs, hm1, hm2⟩ := markStallLoop_walk_high head tail size hth hh
      (size - head) (size + 1) head blocks hlen rfl (Nat.le_refl head) hh
      (by omega)
    refine ⟨bs, hbs, ?_, markStallLoop_fields head tail size (size + 1) head
      blocks bs hbs⟩
    intro j hj
    simp only [index_valid] at hj
    rw [if_neg hht] at hj
    simp only [decide_eq_true_eq] at hj
    rcases hj with ⟨hj1, hj2⟩ | hj
    · exact hm1 j hj1 hj2
    · exact hm2 j hj

/-- C7: a transfer completing with transport status STALL sets the xfer
status to STALLED, marks every block in the request span
(`blk_head` to `blk_tail`) `Handled`, performs no data scatter into any
block (`buf`, `blen`, `bdone` of every slot are untouched), and invokes the
registered `notify_cb`. -/
theorem usb_dev_comp_cb_stall_C7 :
    ∀ (fuel : Nat) (ctx : CompCtx) (trn : CompTrn) (r : CompReq) (x : DataXfer),
      trn.status = TrnStatus.stall → ctx.hasNotify = true →
      r.blk_head < x.max_blk_cnt → r.blk_tail < x.max_blk_cnt →
      x.data.length = x.max_blk_cnt →
      ∃ res, usb_dev_comp_cb fuel ctx trn r x = some res ∧
        res.status = UsbErr.stalled ∧
        (∀ j, index_valid r.blk_head r.blk_tail x.max_blk_cnt j = true →
          (res.blocks.getD j default).stat = BlockStat.handled) ∧
        (∀ j, (res.blocks.getD j default).buf = (x.data.getD j default).buf ∧
          (res.blocks.getD j default).blen = (x.data.getD j default).blen ∧
          (res.blocks.getD j default).bdone = (x.data.getD j default).bdone) ∧
        res.notified = true := by
  intro fuel ctx trn r x hst hn hh ht hlen
  obtain ⟨bs, hbs, hmark, hfields⟩ := markStallLoop_spec r.blk_head r.blk_tail
    x.max_blk_cnt x.data hh ht hlen
  refine ⟨{ status := UsbErr.stalled, blocks := bs, locked := false,
            notified := ctx.hasNotify,
            intr := ctx.hasNotify && decide (ctx.notifyRc ≠ 0) && ctx.hasIntr,
            unlocked := true, reqFreed := true }, ?_, rfl, hmark, hfields, hn⟩
  simp only [usb_dev_comp_cb, hst]
  rw [hbs]

/-- Witness for C7 at a concrete input: a stalled 2-slot ring with span
`[0, 1)` ends STALLED with its only span block `Handled` and the front end
notified. -/
theorem usb_dev_comp_cb_stall_C7_witness :
    ∃ res, usb_dev_comp_cb 1 ⟨true, true, 1, true⟩ ⟨TrnStatus.stall, false, 0, []⟩
        ⟨0, 1, true, [5, 6]⟩
        ⟨0x81, 2, [⟨[7], 1, 0, BlockType.full, BlockStat.handling⟩,
          ⟨[], 0, 0, BlockType.dnone, BlockStat.free⟩]⟩ = some res ∧
      res.status = UsbErr.stalled ∧ res.notified = true := by
  obtain ⟨res, hres, hstatus, _, _, hnot⟩ := usb_dev_comp_cb_stall_C7 1
    ⟨true, true, 1, true⟩ ⟨TrnStatus.stall, false, 0, []⟩ ⟨0, 1, true, [5, 6]⟩
    ⟨0x81, 2, [⟨[7], 1, 0, BlockType.full, BlockStat.handling⟩,
      ⟨[], 0, 0, BlockType.dnone, BlockStat.free⟩]⟩
    rfl rfl (by decide) (by decide) (by decide)
  exact ⟨res, hres, hstatus, hnot⟩
